import Mathlib

set_option maxRecDepth 100000
set_option maxHeartbeats 2000000

/-!
Verification of the 320-bit signed integer type `I320` and its binary
extended-Euclidean modular-inverse routine (`src/modinv.rs`).

The Rust type `I320 { d: [u64; 5] }` stores five 64-bit limbs, least
significant first.  We embed each limb as a `Nat` together with the
well-formedness predicate `Wf` saying every limb is `< 2^64`; in-place
mutating methods of the Rust code become functions returning the updated
value.  The Rust `while` loop of `modinv` is modelled by the fuel-indexed
`modinv_loop` (fuel 640, shown sufficient under the documented
preconditions).
-/

/-- Five 64-bit limbs, least significant first (`I320 { d: [u64; 5] }`). -/
structure I320 where
  d0 : Nat
  d1 : Nat
  d2 : Nat
  d3 : Nat
  d4 : Nat
deriving DecidableEq, Repr

/-- Every limb fits in 64 bits (automatic for Rust `u64`, explicit here). -/
def I320.Wf (v : I320) : Prop :=
  v.d0 < 2 ^ 64 ∧ v.d1 < 2 ^ 64 ∧ v.d2 < 2 ^ 64 ∧ v.d3 < 2 ^ 64 ∧ v.d4 < 2 ^ 64

instance (v : I320) : Decidable v.Wf := by unfold I320.Wf; infer_instance

/-- `I320::new(d4, d3, d2, d1, d0)`: arguments most significant first. -/
def I320.new (d4 d3 d2 d1 d0 : Nat) : I320 :=
  ⟨d0, d1, d2, d3, d4⟩

/-- `is_even`: `self.d[0] & 0x1 == 0x0`. -/
def I320.is_even (v : I320) : Bool :=
  v.d0 &&& 0x1 == 0x0

/-- `is_zero`: `(d[0] | d[1] | d[2] | d[3] | d[4]) == 0`. -/
def I320.is_zero (v : I320) : Bool :=
  (v.d0 ||| v.d1 ||| v.d2 ||| v.d3 ||| v.d4) == 0

/-- `div2`: one-bit right shift across the limbs; the low bit of limb
`i+1` moves into the top bit of limb `i`, and limb 4 is shifted with its
own top bit (`t = d[4] >> 63`) re-inserted. -/
def I320.div2 (v : I320) : I320 :=
  let e0 := ((v.d1 &&& 0x01) <<< 63) ||| (v.d0 >>> 1)
  let e1 := ((v.d2 &&& 0x01) <<< 63) ||| (v.d1 >>> 1)
  let e2 := ((v.d3 &&& 0x01) <<< 63) ||| (v.d2 >>> 1)
  let e3 := ((v.d4 &&& 0x01) <<< 63) ||| (v.d3 >>> 1)
  let e4 := ((v.d4 >>> 63) <<< 63) ||| (v.d4 >>> 1)
  ⟨e0, e1, e2, e3, e4⟩

/-- `AddAssign`: limb-wise sum accumulated in a `u128` `t`; `t as u64`
is `t % 2^64`, `t >>= 64` is `t >>> 64` (the `u128` additions cannot
overflow, so plain `Nat` addition is exact). -/
def I320.add_assign (v w : I320) : I320 :=
  let t := v.d0 + w.d0
  let r0 := t % 2 ^ 64
  let t := (t >>> 64) + v.d1 + w.d1
  let r1 := t % 2 ^ 64
  let t := (t >>> 64) + v.d2 + w.d2
  let r2 := t % 2 ^ 64
  let t := (t >>> 64) + v.d3 + w.d3
  let r3 := t % 2 ^ 64
  let t := (t >>> 64) + v.d4 + w.d4
  let r4 := t % 2 ^ 64
  ⟨r0, r1, r2, r3, r4⟩

/-- `SubAssign`: limb-wise difference with borrow; `u128::wrapping_sub`
is subtraction mod `2^128`, rendered as `(2^128 + a - b) % 2^128` on
`Nat`, and the borrow is `(t >>> 64) &&& 0x01` exactly as in the source. -/
def I320.sub_assign (v w : I320) : I320 :=
  let t := (2 ^ 128 + v.d0 - w.d0) % 2 ^ 128
  let r0 := t % 2 ^ 64
  let t := (t >>> 64) &&& 0x01
  let t := (2 ^ 128 + v.d1 - (t + w.d1)) % 2 ^ 128
  let r1 := t % 2 ^ 64
  let t := (t >>> 64) &&& 0x01
  let t := (2 ^ 128 + v.d2 - (t + w.d2)) % 2 ^ 128
  let r2 := t % 2 ^ 64
  let t := (t >>> 64) &&& 0x01
  let t := (2 ^ 128 + v.d3 - (t + w.d3)) % 2 ^ 128
  let r3 := t % 2 ^ 64
  let t := (t >>> 64) &&& 0x01
  let t := (2 ^ 128 + v.d4 - (t + w.d4)) % 2 ^ 128
  let r4 := t % 2 ^ 64
  ⟨r0, r1, r2, r3, r4⟩

/-- `Ord::cmp`: signed comparison; the top limbs are compared with the
two's-complement sign fix-up, the loop `for i in (0..4).rev()` over the
lower limbs is unrolled. -/
def I320.cmp (v w : I320) : Ordering :=
  if v.d4 > w.d4 then
    if (v.d4 ^^^ w.d4) >>> 63 == 0 then Ordering.gt else Ordering.lt
  else if v.d4 < w.d4 then
    if (v.d4 ^^^ w.d4) >>> 63 == 0 then Ordering.lt else Ordering.gt
  else
    if v.d3 > w.d3 then Ordering.gt
    else if v.d3 < w.d3 then Ordering.lt
    else if v.d2 > w.d2 then Ordering.gt
    else if v.d2 < w.d2 then Ordering.lt
    else if v.d1 > w.d1 then Ordering.gt
    else if v.d1 < w.d1 then Ordering.lt
    else if v.d0 > w.d0 then Ordering.gt
    else if v.d0 < w.d0 then Ordering.lt
    else Ordering.eq

/-- `div2_mod`: `if !self.is_even() { self.add_assign(m); } self.div2()`. -/
def I320.div2_mod (v m : I320) : I320 :=
  (if v.is_even then v else v.add_assign m).div2

/-- The four mutable locals of `modinv`: the running remainder `a`
(the receiver `self`), `b`, and the coefficients `x`, `y`. -/
structure I320.St where
  a : I320
  b : I320
  x : I320
  y : I320
deriving DecidableEq, Repr

/-- One iteration of the `while !self.is_zero()` body of `modinv`. -/
def I320.modinv_step (m : I320) (s : I320.St) : I320.St :=
  if s.a.is_even then
    ⟨s.a.div2, s.b, s.x.div2_mod m, s.y⟩
  else
    let s := if s.a.cmp s.b = Ordering.lt then I320.St.mk s.b s.a s.y s.x else s
    ⟨(s.a.sub_assign s.b).div2, s.b, (s.x.sub_assign s.y).div2_mod m, s.y⟩

/-- The `while !self.is_zero()` loop of `modinv`, with explicit fuel
(the loop provably stops within 638 iterations under the documented
preconditions, so fuel 640 never binds there). -/
def I320.modinv_loop (m : I320) : Nat → I320.St → I320.St
  | 0, s => s
  | fuel + 1, s => if s.a.is_zero then s else I320.modinv_loop m fuel (I320.modinv_step m s)

/-- `modinv`: `b = *m; x = 1; y = 0;` run the loop, then `*self = y`. -/
def I320.modinv (v m : I320) : I320 :=
  (I320.modinv_loop m 640 ⟨v, m, ⟨1, 0, 0, 0, 0⟩, ⟨0, 0, 0, 0, 0⟩⟩).y

/-- Unsigned value of the five limbs. -/
def I320.uval (v : I320) : Nat :=
  v.d0 + 2 ^ 64 * v.d1 + 2 ^ 128 * v.d2 + 2 ^ 192 * v.d3 + 2 ^ 256 * v.d4

/-- Two's-complement signed value: the unsigned value, lowered by
`2^320` when the top bit of limb 4 is set. -/
def I320.sval (v : I320) : ℤ :=
  if v.d4 < 2 ^ 63 then (v.uval : ℤ) else (v.uval : ℤ) - 2 ^ 320

example : I320.uval (I320.new 0 0 0 0 5) = 5 := by decide
example : I320.sval (I320.new 0xffffffffffffffff 0xffffffffffffffff 0xffffffffffffffff
    0xffffffffffffffff 0xffffffffffffffff) = -1 := by decide
example : (I320.new 0 0 0 0 256).div2.div2.div2 = I320.new 0 0 0 0 32 := by decide
example : I320.modinv (I320.new 0 0 0 0 0) (I320.new 0 0 0 0 5) = I320.new 0 0 0 0 0 := rfl
example : I320.modinv (I320.new 0 0 0 0 2) (I320.new 0 0 0 0 5) = I320.new 0 0 0 0 3 := by decide

/-! ## Bit-operation bridges -/

theorem lor_eq_zero_iff (a b : Nat) : a ||| b = 0 ↔ a = 0 ∧ b = 0 := by
  constructor
  · intro h
    constructor <;> refine Nat.eq_of_testBit_eq fun i => ?_ <;>
      · have hb : (a ||| b).testBit i = (0 : Nat).testBit i := by rw [h]
        simp only [Nat.testBit_lor, Nat.zero_testBit, Bool.or_eq_false_iff] at hb
        simp [Nat.zero_testBit, hb.1, hb.2]
  · rintro ⟨rfl, rfl⟩; rfl

theorem I320.is_zero_iff (v : I320) : v.is_zero = true ↔ v.uval = 0 := by
  simp only [I320.is_zero, I320.uval, beq_iff_eq, lor_eq_zero_iff]
  omega

theorem I320.is_even_iff (v : I320) : v.is_even = true ↔ v.uval % 2 = 0 := by
  simp only [I320.is_even, I320.uval, beq_iff_eq, Nat.and_one_is_mod]
  omega

theorem I320.uval_lt (v : I320) (h : v.Wf) : v.uval < 2 ^ 320 := by
  rcases h with ⟨h0, h1, h2, h3, h4⟩
  simp only [I320.uval]
  omega

/-- The two branches of `sval`, with the matching range of `uval`. -/
theorem I320.sval_cases (v : I320) (h : v.Wf) :
    (v.sval = (v.uval : ℤ) ∧ v.uval < 2 ^ 319) ∨
      (v.sval = (v.uval : ℤ) - 2 ^ 320 ∧ 2 ^ 319 ≤ v.uval ∧ v.uval < 2 ^ 320) := by
  rcases h with ⟨h0, h1, h2, h3, h4⟩
  simp only [I320.sval, I320.uval]
  split <;> [left; right] <;> exact ⟨rfl, by omega⟩

theorem I320.sval_range (v : I320) (h : v.Wf) :
    -(2 ^ 319) ≤ v.sval ∧ v.sval < 2 ^ 319 := by
  rcases v.sval_cases h with ⟨he, hr⟩ | ⟨he, hr1, hr2⟩ <;> rw [he] <;> omega

theorem I320.uval_inj (v w : I320) (hv : v.Wf) (hw : w.Wf) (h : v.uval = w.uval) :
    v = w := by
  rcases v with ⟨a, b, c, d, e⟩
  rcases w with ⟨a2, b2, c2, d2, e2⟩
  rcases hv with ⟨hv0, hv1, hv2, hv3, hv4⟩
  rcases hw with ⟨hw0, hw1, hw2, hw3, hw4⟩
  simp only [I320.uval] at h
  simp only [I320.mk.injEq]
  dsimp only at hv0 hv1 hv2 hv3 hv4 hw0 hw1 hw2 hw3 hw4 h
  omega

theorem I320.sval_inj (v w : I320) (hv : v.Wf) (hw : w.Wf) (h : v.sval = w.sval) :
    v = w := by
  refine v.uval_inj w hv hw ?_
  rcases v.sval_cases hv with ⟨he, hr⟩ | ⟨he, hr1, hr2⟩ <;>
    rcases w.sval_cases hw with ⟨he2, hr2'⟩ | ⟨he2, hr12, hr22⟩ <;>
      rw [he, he2] at h <;> omega

/-! ## Addition, subtraction, halving: unsigned characterizations -/

theorem I320.add_assign_wf (v w : I320) : (v.add_assign w).Wf := by
  simp only [I320.add_assign, I320.Wf]
  refine ⟨?_, ?_, ?_, ?_, ?_⟩ <;> omega

theorem I320.uval_add_assign (v w : I320) :
    (v.add_assign w).uval = (v.uval + w.uval) % 2 ^ 320 := by
  simp only [I320.add_assign, I320.uval, Nat.shiftRight_eq_div_pow]
  omega

theorem I320.sub_assign_wf (v w : I320) : (v.sub_assign w).Wf := by
  simp only [I320.sub_assign, I320.Wf]
  refine ⟨?_, ?_, ?_, ?_, ?_⟩ <;> omega

/-- One `u128` wrapping-sub step of `SubAssign`, low 64 bits. -/
theorem wsub_mod (x y : Nat) (hx : x < 2 ^ 64) (hy : y ≤ 2 ^ 64) :
    ((2 ^ 128 + x - y) % 2 ^ 128) % 2 ^ 64 = (2 ^ 64 + x - y) % 2 ^ 64 := by omega

/-- One `u128` wrapping-sub step of `SubAssign`, borrow bit. -/
theorem wsub_borrow (x y : Nat) (hx : x < 2 ^ 64) (hy : y ≤ 2 ^ 64) :
    ((2 ^ 128 + x - y) % 2 ^ 128) >>> 64 &&& 0x01 = if x < y then 1 else 0 := by
  rw [Nat.shiftRight_eq_div_pow, Nat.and_one_is_mod]
  split <;> omega

theorem bor_le (c : Prop) [Decidable c] (d : Nat) (hd : d < 2 ^ 64) :
    (if c then 1 else 0) + d ≤ 2 ^ 64 := by split <;> omega

theorem I320.uval_sub_assign (v w : I320) (hv : v.Wf) (hw : w.Wf) :
    (v.sub_assign w).uval = (2 ^ 320 + v.uval - w.uval) % 2 ^ 320 := by
  obtain ⟨h0, h1, h2, h3, h4⟩ := hv
  obtain ⟨g0, g1, g2, g3, g4⟩ := hw
  simp only [I320.sub_assign, I320.uval]
  rw [wsub_borrow _ _ h0 (by omega), wsub_mod _ _ h0 (by omega)]
  rw [wsub_borrow _ _ h1 (bor_le _ _ g1), wsub_mod _ _ h1 (bor_le _ _ g1)]
  rw [wsub_borrow _ _ h2 (bor_le _ _ g2), wsub_mod _ _ h2 (bor_le _ _ g2)]
  rw [wsub_borrow _ _ h3 (bor_le _ _ g3), wsub_mod _ _ h3 (bor_le _ _ g3)]
  rw [wsub_mod _ _ h4 (bor_le _ _ g4)]
  split_ifs <;> omega

/-- `(t << 63) | (u >> 1)` is an exact sum: the two operands occupy
disjoint bit ranges. -/
theorem lor_limb (t u : Nat) (_ht : t < 2) (hu : u < 2 ^ 64) :
    (t <<< 63) ||| (u >>> 1) = t * 2 ^ 63 + u / 2 := by
  have hlt : u / 2 ^ 1 < 2 ^ 63 := by omega
  rw [Nat.shiftLeft_eq, Nat.shiftRight_eq_div_pow, mul_comm, ← Nat.mul_add_lt_is_or hlt]
  omega

theorem I320.div2_wf (v : I320) (h : v.Wf) : v.div2.Wf := by
  obtain ⟨h0, h1, h2, h3, h4⟩ := h
  have e0 := lor_limb (v.d1 &&& 0x01) v.d0 (by rw [Nat.and_one_is_mod]; omega) h0
  have e1 := lor_limb (v.d2 &&& 0x01) v.d1 (by rw [Nat.and_one_is_mod]; omega) h1
  have e2 := lor_limb (v.d3 &&& 0x01) v.d2 (by rw [Nat.and_one_is_mod]; omega) h2
  have e3 := lor_limb (v.d4 &&& 0x01) v.d3 (by rw [Nat.and_one_is_mod]; omega) h3
  have e4 := lor_limb (v.d4 >>> 63) v.d4 (by rw [Nat.shiftRight_eq_div_pow]; omega) h4
  simp only [I320.div2, I320.Wf]
  rw [e0, e1, e2, e3, e4]
  rw [Nat.and_one_is_mod, Nat.and_one_is_mod, Nat.and_one_is_mod, Nat.and_one_is_mod,
    Nat.shiftRight_eq_div_pow]
  refine ⟨?_, ?_, ?_, ?_, ?_⟩ <;> omega

/-- `div2` halves the unsigned value and re-inserts the old top bit at
position 319 (an arithmetic, not logical, shift). -/
theorem I320.uval_div2 (v : I320) (h : v.Wf) :
    v.div2.uval = v.uval / 2 + v.d4 / 2 ^ 63 * 2 ^ 319 := by
  obtain ⟨h0, h1, h2, h3, h4⟩ := h
  have e0 := lor_limb (v.d1 &&& 0x01) v.d0 (by rw [Nat.and_one_is_mod]; omega) h0
  have e1 := lor_limb (v.d2 &&& 0x01) v.d1 (by rw [Nat.and_one_is_mod]; omega) h1
  have e2 := lor_limb (v.d3 &&& 0x01) v.d2 (by rw [Nat.and_one_is_mod]; omega) h2
  have e3 := lor_limb (v.d4 &&& 0x01) v.d3 (by rw [Nat.and_one_is_mod]; omega) h3
  have e4 := lor_limb (v.d4 >>> 63) v.d4 (by rw [Nat.shiftRight_eq_div_pow]; omega) h4
  simp only [I320.div2, I320.uval]
  rw [e0, e1, e2, e3, e4]
  rw [Nat.and_one_is_mod, Nat.and_one_is_mod, Nat.and_one_is_mod, Nat.and_one_is_mod,
    Nat.shiftRight_eq_div_pow]
  omega

/-- With well-formed limbs, the sign bit is readable off either `uval`
or the top limb. -/
theorem I320.uval_lt_iff (v : I320) (h : v.Wf) : v.uval < 2 ^ 319 ↔ v.d4 < 2 ^ 63 := by
  obtain ⟨h0, h1, h2, h3, h4⟩ := h
  simp only [I320.uval]
  omega

/-- `div2` computes floor division by two of the signed value. -/
theorem I320.sval_div2 (v : I320) (h : v.Wf) : v.div2.sval = v.sval / 2 := by
  have hwf := v.div2_wf h
  have hu := v.uval_div2 h
  have h1 := v.sval_cases h
  have h2 := v.div2.sval_cases hwf
  have h3 := v.uval_lt_iff h
  have h4 := v.div2.uval_lt_iff hwf
  have h5 : v.d4 < 2 ^ 64 := h.2.2.2.2
  omega

theorem I320.is_zero_sval (v : I320) (h : v.Wf) : v.is_zero = true ↔ v.sval = 0 := by
  rw [v.is_zero_iff]
  have h1 := v.sval_cases h
  omega

theorem I320.is_even_sval (v : I320) (h : v.Wf) : v.is_even = true ↔ v.sval % 2 = 0 := by
  rw [v.is_even_iff]
  have h1 := v.sval_cases h
  omega

/-- In-range addition is exact on signed values. -/
theorem I320.sval_add_exact (v w : I320) (hv : v.Wf) (hw : w.Wf)
    (hlo : -(2 ^ 319) ≤ v.sval + w.sval) (hhi : v.sval + w.sval < 2 ^ 319) :
    (v.add_assign w).sval = v.sval + w.sval := by
  have h1 := v.uval_add_assign w
  have h2 := v.sval_cases hv
  have h3 := w.sval_cases hw
  have h4 := (v.add_assign w).sval_cases (v.add_assign_wf w)
  omega

/-- In-range subtraction is exact on signed values. -/
theorem I320.sval_sub_exact (v w : I320) (hv : v.Wf) (hw : w.Wf)
    (hlo : -(2 ^ 319) ≤ v.sval - w.sval) (hhi : v.sval - w.sval < 2 ^ 319) :
    (v.sub_assign w).sval = v.sval - w.sval := by
  have h1 := v.uval_sub_assign w hv hw
  have h2 := v.sval_cases hv
  have h3 := w.sval_cases hw
  have h4 := (v.sub_assign w).sval_cases (v.sub_assign_wf w)
  have h5 := v.uval_lt hv
  have h6 := w.uval_lt hw
  omega

theorem I320.div2_mod_wf (v m : I320) (hv : v.Wf) : (v.div2_mod m).Wf := by
  unfold I320.div2_mod
  split
  · exact v.div2_wf hv
  · exact (v.add_assign m).div2_wf (v.add_assign_wf m)

/-- `div2_mod` on an even value just halves. -/
theorem I320.sval_div2_mod_even (v m : I320) (hv : v.Wf) (h : v.sval % 2 = 0) :
    (v.div2_mod m).sval = v.sval / 2 := by
  unfold I320.div2_mod
  rw [if_pos ((v.is_even_sval hv).mpr h)]
  exact v.sval_div2 hv

/-- `div2_mod` on an odd value adds the modulus first, then halves;
exact provided the sum stays in signed range. -/
theorem I320.sval_div2_mod_odd (v m : I320) (hv : v.Wf) (hm : m.Wf)
    (h : ¬ v.sval % 2 = 0)
    (hlo : -(2 ^ 319) ≤ v.sval + m.sval) (hhi : v.sval + m.sval < 2 ^ 319) :
    (v.div2_mod m).sval = (v.sval + m.sval) / 2 := by
  unfold I320.div2_mod
  rw [if_neg (by rw [v.is_even_sval hv]; exact h)]
  rw [(v.add_assign m).sval_div2 (v.add_assign_wf m)]
  rw [v.sval_add_exact m hv hm hlo hhi]

/-- `(a ^ b) >> 63 == 0` tests whether two 64-bit values share their top
bit (the sign test of `Ord::cmp`). -/
theorem xor_top_eq_zero_iff (a b : Nat) (ha : a < 2 ^ 64) (hb : b < 2 ^ 64) :
    (a ^^^ b) >>> 63 = 0 ↔ a / 2 ^ 63 = b / 2 ^ 63 := by
  have hx : a ^^^ b < 2 ^ 64 := Nat.xor_lt_two_pow ha hb
  have ht : (a ^^^ b).testBit 63 = ((a.testBit 63).xor (b.testBit 63)) := Nat.testBit_xor a b 63
  rw [Nat.testBit_to_div_mod, Nat.testBit_to_div_mod, Nat.testBit_to_div_mod] at ht
  rw [Nat.shiftRight_eq_div_pow]
  by_cases p : a / 2 ^ 63 % 2 = 1 <;> by_cases q : b / 2 ^ 63 % 2 = 1
  · rw [decide_eq_true p, decide_eq_true q, show (true ^^ true) = false from rfl,
      decide_eq_false_iff_not] at ht
    omega
  · rw [decide_eq_true p, decide_eq_false q, show (true ^^ false) = true from rfl,
      decide_eq_true_eq] at ht
    omega
  · rw [decide_eq_false p, decide_eq_true q, show (false ^^ true) = true from rfl,
      decide_eq_true_eq] at ht
    omega
  · rw [decide_eq_false p, decide_eq_false q, show (false ^^ false) = false from rfl,
      decide_eq_false_iff_not] at ht
    omega

theorem ord_triple_lt (v w : I320) (h : v.sval < w.sval) :
    (Ordering.lt = Ordering.lt ↔ v.sval < w.sval) ∧ (False ↔ v = w) ∧
      (False ↔ w.sval < v.sval) := by
  refine ⟨by simp [h], ⟨False.elim, fun hc => ?_⟩, False.elim, fun hc => by omega⟩
  subst hc
  exact absurd h (by omega)

theorem ord_triple_gt (v w : I320) (h : w.sval < v.sval) :
    (False ↔ v.sval < w.sval) ∧ (False ↔ v = w) ∧
      (Ordering.gt = Ordering.gt ↔ w.sval < v.sval) := by
  refine ⟨⟨False.elim, fun hc => by omega⟩, ⟨False.elim, fun hc => ?_⟩, by simp [h]⟩
  subst hc
  exact absurd h (by omega)

theorem ord_triple_eq (v w : I320) (h : v = w) :
    (False ↔ v.sval < w.sval) ∧ (Ordering.eq = Ordering.eq ↔ v = w) ∧
      (False ↔ w.sval < v.sval) := by
  subst h
  exact ⟨⟨False.elim, fun hc => by omega⟩, by simp,
    ⟨False.elim, fun hc => by omega⟩⟩

/-- `Ord::cmp` agrees with the order of the two's-complement signed
values, and returns `eq` exactly at bitwise equality. -/
theorem I320.cmp_spec (v w : I320) (hv : v.Wf) (hw : w.Wf) :
    (v.cmp w = Ordering.lt ↔ v.sval < w.sval) ∧ (v.cmp w = Ordering.eq ↔ v = w) ∧
      (v.cmp w = Ordering.gt ↔ w.sval < v.sval) := by
  have hsv := v.sval_cases hv
  have hsw := w.sval_cases hw
  have hlv := v.uval_lt_iff hv
  have hlw := w.uval_lt_iff hw
  have huv : v.uval = v.d0 + 2 ^ 64 * v.d1 + 2 ^ 128 * v.d2 + 2 ^ 192 * v.d3 + 2 ^ 256 * v.d4 :=
    rfl
  have huw : w.uval = w.d0 + 2 ^ 64 * w.d1 + 2 ^ 128 * w.d2 + 2 ^ 192 * w.d3 + 2 ^ 256 * w.d4 :=
    rfl
  obtain ⟨hv0, hv1, hv2, hv3, hv4⟩ := hv
  obtain ⟨hw0, hw1, hw2, hw3, hw4⟩ := hw
  have hxor := xor_top_eq_zero_iff v.d4 w.d4 hv4 hw4
  simp only [I320.cmp, beq_iff_eq]
  split_ifs with h1 h2 h3 h4 h5 h6 h7 h8 h9 h10 h11
  · exact ord_triple_gt v w (by rw [hxor] at h2; omega)
  · exact ord_triple_lt v w (by rw [hxor] at h2; omega)
  · exact ord_triple_lt v w (by rw [hxor] at h4; omega)
  · exact ord_triple_gt v w (by rw [hxor] at h4; omega)
  · exact ord_triple_gt v w (by omega)
  · exact ord_triple_lt v w (by omega)
  · exact ord_triple_gt v w (by omega)
  · exact ord_triple_lt v w (by omega)
  · exact ord_triple_gt v w (by omega)
  · exact ord_triple_lt v w (by omega)
  · exact ord_triple_gt v w (by omega)
  · exact ord_triple_lt v w (by omega)
  · refine ord_triple_eq v w ?_
    refine v.uval_inj w ⟨hv0, hv1, hv2, hv3, hv4⟩ ⟨hw0, hw1, hw2, hw3, hw4⟩ (by omega)

/-- `div2` preserves the top bit of limb 4 (the sign bit). -/
theorem I320.div2_top (v : I320) (h : v.Wf) : v.div2.d4 >>> 63 = v.d4 >>> 63 := by
  obtain ⟨h0, h1, h2, h3, h4⟩ := h
  have e4 := lor_limb (v.d4 >>> 63) v.d4 (by rw [Nat.shiftRight_eq_div_pow]; omega) h4
  show (((v.d4 >>> 63) <<< 63) ||| (v.d4 >>> 1)) >>> 63 = v.d4 >>> 63
  rw [e4, Nat.shiftRight_eq_div_pow, Nat.shiftRight_eq_div_pow]
  omega

/-! ## The claims -/

/-- Claim C2: 320-bit addition and subtraction are total and compute
exact integer arithmetic modulo `2^320`, the final carry/borrow out of
limb 4 being discarded. -/
theorem claim_C2 (p q : I320) (hp : p.Wf) (hq : q.Wf) :
    ((p.add_assign q).uval : ℤ) = ((p.uval : ℤ) + (q.uval : ℤ)) % 2 ^ 320 ∧
      ((p.sub_assign q).uval : ℤ) = ((p.uval : ℤ) - (q.uval : ℤ)) % 2 ^ 320 := by
  have ha := p.uval_add_assign q
  have hs := p.uval_sub_assign q hp hq
  have h1 := p.uval_lt hp
  have h2 := q.uval_lt hq
  omega

theorem claim_C2_witness :
    (I320.new 1 2 3 4 5).Wf ∧ (I320.new 0 0 0 0 7).Wf ∧
      (((I320.new 1 2 3 4 5).add_assign (I320.new 0 0 0 0 7)).uval : ℤ) =
          (((I320.new 1 2 3 4 5).uval : ℤ) + ((I320.new 0 0 0 0 7).uval : ℤ)) % 2 ^ 320 ∧
        (((I320.new 1 2 3 4 5).sub_assign (I320.new 0 0 0 0 7)).uval : ℤ) =
          (((I320.new 1 2 3 4 5).uval : ℤ) - ((I320.new 0 0 0 0 7).uval : ℤ)) % 2 ^ 320 := by
  refine ⟨by decide, by decide, ?_⟩
  exact claim_C2 (I320.new 1 2 3 4 5) (I320.new 0 0 0 0 7) (by decide) (by decide)

/-- Claim C7: addition and subtraction are mutual inverses modulo
`2^320`, bit-exactly, despite silent wraparound. -/
theorem claim_C7 (p q : I320) (hp : p.Wf) (hq : q.Wf) :
    (p.add_assign q).sub_assign q = p ∧ (p.sub_assign q).add_assign q = p := by
  constructor
  · refine ((p.add_assign q).sub_assign q).uval_inj p
      ((p.add_assign q).sub_assign_wf q) hp ?_
    have h1 := p.uval_add_assign q
    have h2 := (p.add_assign q).uval_sub_assign q (p.add_assign_wf q) hq
    have h3 := p.uval_lt hp
    have h4 := q.uval_lt hq
    omega
  · refine ((p.sub_assign q).add_assign q).uval_inj p
      ((p.sub_assign q).add_assign_wf q) hp ?_
    have h1 := p.uval_sub_assign q hp hq
    have h2 := (p.sub_assign q).uval_add_assign q
    have h3 := p.uval_lt hp
    have h4 := q.uval_lt hq
    omega

theorem claim_C7_witness :
    (I320.new 0 0 0 0 3).Wf ∧ (I320.new 5 5 5 5 5).Wf ∧
      ((I320.new 0 0 0 0 3).add_assign (I320.new 5 5 5 5 5)).sub_assign (I320.new 5 5 5 5 5) =
          I320.new 0 0 0 0 3 ∧
        ((I320.new 0 0 0 0 3).sub_assign (I320.new 5 5 5 5 5)).add_assign (I320.new 5 5 5 5 5) =
          I320.new 0 0 0 0 3 := by
  refine ⟨by decide, by decide, ?_⟩
  exact claim_C7 (I320.new 0 0 0 0 3) (I320.new 5 5 5 5 5) (by decide) (by decide)

/-- Claim C4, counterexample: on `-2^319` (only the top bit of limb 4
set), `div2` leaves the top bit of limb 4 set, contradicting the claim
that the vacated top bit becomes zero regardless of the sign bit. -/
theorem claim_C4_counterexample :
    ¬ ((I320.new 0x8000000000000000 0 0 0 0).div2.d4 >>> 63 = 0) := by decide

/-- Claim C4, amended: `div2` shifts the whole 320-bit field right one
bit, carrying the low bit of limb `i+1` into the top bit of limb `i`,
and shifts limb 4 arithmetically: the top bit of limb 4 is preserved
(it equals `v`'s sign bit, rather than becoming zero). -/
theorem claim_C4_amended (v : I320) (h : v.Wf) :
    v.div2.d4 >>> 63 = v.d4 >>> 63 ∧
      v.div2.uval = v.uval / 2 + (v.d4 >>> 63) * 2 ^ 319 := by
  refine ⟨v.div2_top h, ?_⟩
  rw [Nat.shiftRight_eq_div_pow]
  exact v.uval_div2 h

theorem claim_C4_amended_witness :
    (I320.new 0x8000000000000000 0 0 0 1).Wf ∧
      ((I320.new 0x8000000000000000 0 0 0 1).div2.d4 >>> 63 =
          (I320.new 0x8000000000000000 0 0 0 1).d4 >>> 63 ∧
        (I320.new 0x8000000000000000 0 0 0 1).div2.uval =
          (I320.new 0x8000000000000000 0 0 0 1).uval / 2 +
            ((I320.new 0x8000000000000000 0 0 0 1).d4 >>> 63) * 2 ^ 319) := by
  refine ⟨by decide, ?_⟩
  exact claim_C4_amended (I320.new 0x8000000000000000 0 0 0 1) (by decide)

/-- On a state whose remainder is zero the loop is a no-op, whatever
the fuel. -/
theorem I320.modinv_loop_of_zero (m : I320) (f : Nat) (s : I320.St) (h : s.a.is_zero = true) :
    I320.modinv_loop m f s = s := by
  cases f with
  | zero => rfl
  | succ f => simp [I320.modinv_loop, h]

/-- Claim C10: `modinv` applied to zero returns zero for every modulus:
the loop guard fails at once and the receiver is overwritten with the
initial `y = 0`. -/
theorem claim_C10 (m : I320) : I320.modinv (I320.new 0 0 0 0 0) m = I320.new 0 0 0 0 0 := by
  have h : I320.modinv_loop m 640 ⟨I320.new 0 0 0 0 0, m, ⟨1, 0, 0, 0, 0⟩, ⟨0, 0, 0, 0, 0⟩⟩ =
      ⟨I320.new 0 0 0 0 0, m, ⟨1, 0, 0, 0, 0⟩, ⟨0, 0, 0, 0, 0⟩⟩ :=
    I320.modinv_loop_of_zero m 640 _ (by show (I320.new 0 0 0 0 0).is_zero = true; decide)
  show (I320.modinv_loop m 640 ⟨I320.new 0 0 0 0 0, m, ⟨1, 0, 0, 0, 0⟩, ⟨0, 0, 0, 0, 0⟩⟩).y =
    I320.new 0 0 0 0 0
  rw [h]
  rfl

/-- Claim C3: `cmp` is a total order agreeing with the two's-complement
signed reading: trichotomy (exactly one of `lt`, bitwise-equality, `gt`),
transitivity, `eq` iff bitwise equal, and the boundary chain
`-2^319 < -1 < 0 < 1 < 2^319-1`. -/
theorem claim_C3 (p q r : I320) (hp : p.Wf) (hq : q.Wf) (hr : r.Wf) :
    (p.cmp q = Ordering.lt ∨ p = q ∨ p.cmp q = Ordering.gt) ∧
      (p.cmp q = Ordering.lt → ¬ (p = q ∨ p.cmp q = Ordering.gt)) ∧
      (p = q → ¬ (p.cmp q = Ordering.lt ∨ p.cmp q = Ordering.gt)) ∧
      (p.cmp q = Ordering.gt → ¬ (p.cmp q = Ordering.lt ∨ p = q)) ∧
      (p.cmp q = Ordering.lt → q.cmp r = Ordering.lt → p.cmp r = Ordering.lt) ∧
      (p.cmp q = Ordering.eq ↔ p = q) ∧
      ((I320.new 0x8000000000000000 0 0 0 0).cmp
          (I320.new 0xffffffffffffffff 0xffffffffffffffff 0xffffffffffffffff
            0xffffffffffffffff 0xffffffffffffffff) = Ordering.lt ∧
        (I320.new 0xffffffffffffffff 0xffffffffffffffff 0xffffffffffffffff
          0xffffffffffffffff 0xffffffffffffffff).cmp (I320.new 0 0 0 0 0) = Ordering.lt ∧
        (I320.new 0 0 0 0 0).cmp (I320.new 0 0 0 0 1) = Ordering.lt ∧
        (I320.new 0 0 0 0 1).cmp (I320.new 0x7fffffffffffffff 0xffffffffffffffff
          0xffffffffffffffff 0xffffffffffffffff 0xffffffffffffffff) = Ordering.lt) := by
  obtain ⟨pq_lt, pq_eq, pq_gt⟩ := p.cmp_spec q hp hq
  obtain ⟨qr_lt, qr_eq, qr_gt⟩ := q.cmp_spec r hq hr
  obtain ⟨pr_lt, pr_eq, pr_gt⟩ := p.cmp_spec r hp hr
  refine ⟨?_, ?_, ?_, ?_, ?_, pq_eq, by decide⟩
  · rcases lt_trichotomy p.sval q.sval with h | h | h
    · exact Or.inl (pq_lt.mpr h)
    · exact Or.inr (Or.inl (p.sval_inj q hp hq h))
    · exact Or.inr (Or.inr (pq_gt.mpr h))
  · intro h1 h2
    have hlt := pq_lt.mp h1
    rcases h2 with h2 | h2
    · subst h2; omega
    · have := pq_gt.mp h2; omega
  · intro h1 h2
    subst h1
    rcases h2 with h2 | h2
    · have := pq_lt.mp h2; omega
    · have := pq_gt.mp h2; omega
  · intro h1 h2
    have hgt := pq_gt.mp h1
    rcases h2 with h2 | h2
    · have := pq_lt.mp h2; omega
    · subst h2; omega
  · intro h1 h2
    have ha := pq_lt.mp h1
    have hb := qr_lt.mp h2
    exact pr_lt.mpr (by omega)

theorem claim_C3_witness :
    (I320.new 0 0 0 0 1).Wf ∧ (I320.new 0 0 0 0 2).Wf ∧ (I320.new 0 0 0 0 3).Wf ∧
      ((I320.new 0 0 0 0 1).cmp (I320.new 0 0 0 0 2) = Ordering.lt →
        (I320.new 0 0 0 0 2).cmp (I320.new 0 0 0 0 3) = Ordering.lt →
          (I320.new 0 0 0 0 1).cmp (I320.new 0 0 0 0 3) = Ordering.lt) := by
  refine ⟨by decide, by decide, by decide, ?_⟩
  exact (claim_C3 (I320.new 0 0 0 0 1) (I320.new 0 0 0 0 2) (I320.new 0 0 0 0 3)
    (by decide) (by decide) (by decide)).2.2.2.2.1

/-- Iterated `div2` on a non-negative value whose low `k` bits are zero
divides the unsigned value by `2^k` exactly. -/
theorem I320.div2_iterate_uval (k : Nat) :
    ∀ v : I320, v.Wf → v.d4 < 2 ^ 63 → 2 ^ k ∣ v.uval →
      (I320.div2^[k] v).uval = v.uval / 2 ^ k := by
  induction k with
  | zero => intro v _ _ _; simp
  | succ k ih =>
    intro v hv hpos hdvd
    have hwf := v.div2_wf hv
    have hu := v.uval_div2 hv
    have htop := v.div2_top hv
    rw [Nat.shiftRight_eq_div_pow, Nat.shiftRight_eq_div_pow] at htop
    have hd4 : v.d4 / 2 ^ 63 = 0 := by omega
    have hwd4 : v.div2.d4 < 2 ^ 64 := hwf.2.2.2.2
    have hpos2 : v.div2.d4 < 2 ^ 63 := by omega
    have hu2 : v.div2.uval = v.uval / 2 := by omega
    obtain ⟨c, hc⟩ := hdvd
    have e1 : v.div2.uval = 2 ^ k * c := by
      rw [hu2, hc, pow_succ, show 2 ^ k * 2 * c = 2 ^ k * c * 2 from by ring,
        Nat.mul_div_cancel _ two_pos]
    rw [Function.iterate_succ_apply, ih v.div2 hwf hpos2 ⟨c, e1⟩, e1,
      Nat.mul_div_cancel_left c (Nat.pos_pow_of_pos k two_pos), hc, pow_succ,
      show 2 ^ k * 2 * c = (2 ^ k * 2) * c from by ring,
      Nat.mul_div_cancel_left c (by positivity)]

/-- Claim C5, counterexample: the unsigned value of `-2^319` (top bit
only) is divisible by `2`, yet `div2` does not produce the bit pattern
of `value / 2` (the sign bit is re-inserted). -/
theorem claim_C5_counterexample :
    2 ^ 1 ∣ (I320.new 0x8000000000000000 0 0 0 0).uval ∧
      ¬ ((I320.div2^[1] (I320.new 0x8000000000000000 0 0 0 0)).uval =
        (I320.new 0x8000000000000000 0 0 0 0).uval / 2 ^ 1) := by decide

/-- Claim C5, amended: for every value whose sign bit is clear and whose
unsigned value is divisible by `2^k`, `k` applications of `div2` produce
the bit pattern of `value / 2^k` exactly; in particular halving `256`
three times yields `32`.  (For sign-bit-set values `div2` re-inserts the
sign bit, so the original claim fails there.) -/
theorem claim_C5_amended (v : I320) (k : Nat) (hv : v.Wf) (hpos : v.d4 < 2 ^ 63)
    (hdvd : 2 ^ k ∣ v.uval) :
    (I320.div2^[k] v).uval = v.uval / 2 ^ k ∧
      (I320.new 0 0 0 0 256).div2.div2.div2 = I320.new 0 0 0 0 32 :=
  ⟨I320.div2_iterate_uval k v hv hpos hdvd, by decide⟩

theorem claim_C5_amended_witness :
    ((I320.new 0 0 0 0 256).Wf ∧ (I320.new 0 0 0 0 256).d4 < 2 ^ 63 ∧
        2 ^ 3 ∣ (I320.new 0 0 0 0 256).uval) ∧
      (I320.div2^[3] (I320.new 0 0 0 0 256)).uval = (I320.new 0 0 0 0 256).uval / 2 ^ 3 ∧
        (I320.new 0 0 0 0 256).div2.div2.div2 = I320.new 0 0 0 0 32 := by
  refine ⟨⟨by decide, by decide, by decide⟩, ?_⟩
  exact claim_C5_amended (I320.new 0 0 0 0 256) 3 (by decide) (by decide) (by decide)

/-- An odd integer is coprime to 2. -/
theorem gcd_two_of_odd (n : ℤ) (h : n % 2 = 1) : Int.gcd n 2 = 1 := by
  have h1 : (Int.gcd n 2 : ℤ) ∣ 2 := Int.gcd_dvd_right
  have h2 : (Int.gcd n 2 : ℤ) ∣ n := Int.gcd_dvd_left
  have h3 : Int.gcd n 2 ∣ 2 := by exact_mod_cast h1
  rcases (Nat.prime_two.eq_one_or_self_of_dvd _ h3) with h4 | h4
  · exact h4
  · exfalso
    rw [h4] at h2
    obtain ⟨c, hc⟩ := h2
    omega

/-- Claim C6: for an odd modulus and a value with everything staying in
the non-negative signed range, `div2_mod` returns the representative
whose double is congruent to the original value, uniquely so modulo the
modulus. -/
theorem claim_C6 (v m : I320) (hv : v.Wf) (hm : m.Wf) (hmodd : m.sval % 2 = 1)
    (hv0 : 0 ≤ v.sval) (hm0 : 0 ≤ m.sval) (hsum : v.sval + m.sval < 2 ^ 319) :
    (2 * (v.div2_mod m).sval) % m.sval = v.sval % m.sval ∧
      ∀ r : ℤ, (2 * r) % m.sval = v.sval % m.sval →
        r % m.sval = (v.div2_mod m).sval % m.sval := by
  have hmpos : 0 < m.sval := by omega
  have key : (2 * (v.div2_mod m).sval) % m.sval = v.sval % m.sval := by
    by_cases he : v.sval % 2 = 0
    · rw [v.sval_div2_mod_even m hv he, show 2 * (v.sval / 2) = v.sval from by omega]
    · rw [v.sval_div2_mod_odd m hv hm he (by omega) hsum,
        show 2 * ((v.sval + m.sval) / 2) = v.sval + m.sval from by omega,
        show v.sval + m.sval = v.sval + m.sval * 1 from by ring]
      exact @Int.add_mul_emod_self_left v.sval m.sval 1
  refine ⟨key, fun r hr => ?_⟩
  have h2 : (2 * r) % m.sval = (2 * (v.div2_mod m).sval) % m.sval := by rw [hr, key]
  have h3 := Int.ModEq.cancel_left_div_gcd hmpos h2
  rw [gcd_two_of_odd m.sval hmodd] at h3
  simpa using h3

theorem claim_C6_witness :
    ((I320.new 0 0 0 0 3).Wf ∧ (I320.new 0 0 0 0 5).Wf ∧ (I320.new 0 0 0 0 5).sval % 2 = 1 ∧
        0 ≤ (I320.new 0 0 0 0 3).sval ∧ 0 ≤ (I320.new 0 0 0 0 5).sval ∧
        (I320.new 0 0 0 0 3).sval + (I320.new 0 0 0 0 5).sval < 2 ^ 319) ∧
      (2 * ((I320.new 0 0 0 0 3).div2_mod (I320.new 0 0 0 0 5)).sval) %
          (I320.new 0 0 0 0 5).sval = (I320.new 0 0 0 0 3).sval % (I320.new 0 0 0 0 5).sval := by
  refine ⟨⟨by decide, by decide, by decide, by decide, by decide, by decide⟩, ?_⟩
  exact (claim_C6 (I320.new 0 0 0 0 3) (I320.new 0 0 0 0 5) (by decide) (by decide)
    (by decide) (by decide) (by decide) (by decide)).1

/-! ## Integer-level model of the modinv loop -/

/-- `div2_mod` at the level of exact integers: add the modulus if odd,
then floor-halve. -/
def dstep (m v : ℤ) : ℤ :=
  if v % 2 = 0 then v / 2 else (v + m) / 2

/-- The loop state over exact integers. -/
structure ZSt where
  a : ℤ
  b : ℤ
  x : ℤ
  y : ℤ

/-- One `modinv` iteration over exact integers. -/
def zstep (m : ℤ) (s : ZSt) : ZSt :=
  if s.a % 2 = 0 then
    ⟨s.a / 2, s.b, dstep m s.x, s.y⟩
  else
    let s2 := if s.a < s.b then ZSt.mk s.b s.a s.y s.x else s
    ⟨(s2.a - s2.b) / 2, s2.b, dstep m (s2.x - s2.y), s2.y⟩

/-- The fuelled loop over exact integers. -/
def zloop (m : ℤ) : Nat → ZSt → ZSt
  | 0, s => s
  | f + 1, s => if s.a = 0 then s else zloop m f (zstep m s)

/-- Bit length of a non-negative integer. -/
def sz (n : ℤ) : Nat := n.toNat.size

theorem sz_eq_zero_iff (n : ℤ) (h : 0 ≤ n) : sz n = 0 ↔ n = 0 := by
  unfold sz
  rw [Nat.size_eq_zero]
  omega

theorem sz_lt_sz (p q : ℤ) (hp : 1 ≤ p) (_hq : 0 ≤ q) (h : 2 * q ≤ p) : sz q < sz p := by
  unfold sz
  have h1 : p.toNat < 2 ^ p.toNat.size := Nat.lt_size_self _
  have h2 : 1 ≤ p.toNat.size := by
    rcases Nat.eq_zero_or_pos p.toNat.size with h3 | h3
    · rw [Nat.size_eq_zero] at h3; omega
    · exact h3
  have h3 : 2 ^ p.toNat.size = 2 * 2 ^ (p.toNat.size - 1) := by
    rw [← pow_succ']
    congr 1
    omega
  have h4 : q.toNat < 2 ^ (p.toNat.size - 1) := by omega
  have h5 : q.toNat.size ≤ p.toNat.size - 1 := Nat.size_le.mpr h4
  omega

theorem sz_le_of_lt (n : ℤ) (k : Nat) (h0 : 0 ≤ n) (h : n < 2 ^ k) : sz n ≤ k := by
  unfold sz
  refine Nat.size_le.mpr ?_
  have : ((2 ^ k : ℕ) : ℤ) = 2 ^ k := by push_cast; rfl
  omega

theorem coprime_two_of_odd (n : ℕ) (h : n % 2 = 1) : Nat.Coprime 2 n := by
  unfold Nat.Coprime
  rw [Nat.gcd_rec 2 n, h]
  rfl

/-- Halving an even operand does not change a gcd with an odd operand. -/
theorem gcd_half_left (a b : ℤ) (ha : 0 ≤ a) (hae : a % 2 = 0) (hb : 0 ≤ b)
    (hbodd : b % 2 = 1) : Int.gcd (a / 2) b = Int.gcd a b := by
  have h1 : a.natAbs = 2 * (a / 2).natAbs := by omega
  have h2 : Int.gcd (a / 2) b = Nat.gcd (a / 2).natAbs b.natAbs := rfl
  have h3 : Int.gcd a b = Nat.gcd a.natAbs b.natAbs := rfl
  rw [h2, h3, h1]
  exact (Nat.Coprime.gcd_mul_left_cancel (a / 2).natAbs
    (coprime_two_of_odd b.natAbs (by omega))).symm

/-- Subtracting the second operand from the first does not change the
gcd (operands non-negative, subtrahend below minuend). -/
theorem gcd_sub_left (a b : ℤ) (hb : 0 ≤ b) (hba : b ≤ a) :
    Int.gcd (a - b) b = Int.gcd a b := by
  have h2 : Int.gcd (a - b) b = Nat.gcd (a - b).natAbs b.natAbs := rfl
  have h3 : Int.gcd a b = Nat.gcd a.natAbs b.natAbs := rfl
  have h4 : (a - b).natAbs = a.natAbs - b.natAbs := by omega
  have h5 : b.natAbs ≤ a.natAbs := by omega
  rw [h2, h3, h4]
  exact Nat.gcd_sub_self_left h5

/-- The cofactor step: if `x * a0 - u * m = aa` with `aa` even and `m`
odd, then `dstep m x` halves the identity, with a matching cofactor, and
both magnitudes grow by at most the additive constants `m`, `a0`. -/
theorem dstep_identity (m a0 aa x u : ℤ) (hmodd : m % 2 = 1)
    (hid : x * a0 - u * m = aa) (heven : aa % 2 = 0) :
    ∃ u2 : ℤ, dstep m x * a0 - u2 * m = aa / 2 ∧
      2 * (dstep m x).natAbs ≤ x.natAbs + m.natAbs ∧
      2 * u2.natAbs ≤ u.natAbs + a0.natAbs := by
  have hpar : (x * a0) % 2 = x % 2 * (a0 % 2) % 2 := by
    conv_lhs => rw [Int.mul_emod]
  have hpar2 : (u * m) % 2 = u % 2 * (m % 2) % 2 := by
    conv_lhs => rw [Int.mul_emod]
  by_cases hx : x % 2 = 0
  · have hxa : (x * a0) % 2 = 0 := by rw [hpar, hx, zero_mul]; rfl
    have hum : (u * m) % 2 = 0 := by
      have he : u * m = x * a0 - aa := by linarith
      rw [he, Int.sub_emod, hxa, heven]
      rfl
    have hu : u % 2 = 0 := by
      rw [hpar2, hmodd, mul_one] at hum
      omega
    obtain ⟨x2, rfl⟩ : ∃ x2, x = 2 * x2 := ⟨x / 2, by omega⟩
    obtain ⟨u2, rfl⟩ : ∃ u2, u = 2 * u2 := ⟨u / 2, by omega⟩
    have hd : dstep m (2 * x2) = x2 := by
      unfold dstep
      rw [if_pos (by omega : (2 * x2) % 2 = 0)]
      omega
    refine ⟨u2, ?_, by rw [hd]; omega, by omega⟩
    rw [hd]
    have haa : aa = 2 * (x2 * a0 - u2 * m) := by linarith
    rw [haa]
    omega
  · have hx1 : x % 2 = 1 := by omega
    have hxa : (x * a0) % 2 = a0 % 2 := by
      rw [hpar, hx1, one_mul]
      exact Int.emod_emod_of_dvd a0 dvd_rfl
    have hum : (u * m) % 2 = u % 2 := by
      rw [hpar2, hmodd, mul_one]
      exact Int.emod_emod_of_dvd u dvd_rfl
    have hu : u % 2 = a0 % 2 := by
      have h5 : (x * a0 - u * m) % 2 = 0 := by rw [hid]; exact heven
      rw [Int.sub_emod, hxa, hum] at h5
      omega
    obtain ⟨w, hw⟩ : ∃ w, x + m = 2 * w := ⟨(x + m) / 2, by omega⟩
    obtain ⟨u2, hu2⟩ : ∃ u2, u + a0 = 2 * u2 := ⟨(u + a0) / 2, by omega⟩
    have hd : dstep m x = w := by
      unfold dstep
      rw [if_neg (by omega)]
      omega
    refine ⟨u2, ?_, by rw [hd]; omega, by omega⟩
    rw [hd]
    have e1 : x = 2 * w - m := by omega
    have e2 : u = 2 * u2 - a0 := by omega
    rw [e1, e2] at hid
    have haa : aa = 2 * (w * a0 - u2 * m) := by linarith
    rw [haa]
    omega

/-- Loop invariant of the integer-level algorithm: the remainders stay
in `[0, m]` with `b` odd and positive, the pair's gcd is preserved,
both coefficient rows carry exact Bezout-style identities, and the
coefficient magnitudes stay below a budget that grows by `m` for every
bit of remainder length spent. -/
def ZInv (m a0 : ℤ) (s : ZSt) : Prop :=
  0 ≤ s.a ∧ 1 ≤ s.b ∧ s.b % 2 = 1 ∧ s.a ≤ m ∧ s.b ≤ m ∧
    Int.gcd s.a s.b = Int.gcd a0 m ∧ sz s.a + sz s.b ≤ 638 ∧
    (∃ u : ℤ, s.x * a0 - u * m = s.a ∧
      s.x.natAbs + u.natAbs ≤ 1 + (638 - (sz s.a + sz s.b)) * m.natAbs) ∧
    (∃ v : ℤ, s.y * a0 - v * m = s.b ∧
      s.y.natAbs + v.natAbs ≤ 1 + (638 - (sz s.a + sz s.b)) * m.natAbs)

/-- One iteration preserves the invariant and strictly shrinks the
total remainder bit length. -/
theorem zstep_inv (m a0 : ℤ) (hmodd : m % 2 = 1) (ha0 : 0 ≤ a0)
    (ha0m : a0 ≤ m) (s : ZSt) (hs : ZInv m a0 s) (hne : ¬ s.a = 0) :
    ZInv m a0 (zstep m s) ∧ sz (zstep m s).a + sz (zstep m s).b < sz s.a + sz s.b := by
  obtain ⟨ha, hb1, hbodd, ham, hbm, hgcd, hS, ⟨u, hxu, hxb⟩, ⟨v, hyv, hyb⟩⟩ := hs
  have hA : a0.natAbs ≤ m.natAbs := by omega
  by_cases hae : s.a % 2 = 0
  · have hz : zstep m s = ⟨s.a / 2, s.b, dstep m s.x, s.y⟩ := by
      simp only [zstep]
      rw [if_pos hae]
    have hdec : sz (s.a / 2) < sz s.a := sz_lt_sz s.a (s.a / 2) (by omega) (by omega) (by omega)
    obtain ⟨u2, hid2, hbx, hbu⟩ := dstep_identity m a0 s.a s.x u hmodd hxu hae
    have hBB : (638 - (sz s.a + sz s.b)) * m.natAbs + m.natAbs ≤
        (638 - (sz (s.a / 2) + sz s.b)) * m.natAbs := by
      have h1 : (638 - (sz s.a + sz s.b)) + 1 ≤ 638 - (sz (s.a / 2) + sz s.b) := by omega
      calc (638 - (sz s.a + sz s.b)) * m.natAbs + m.natAbs
          = ((638 - (sz s.a + sz s.b)) + 1) * m.natAbs := by ring
        _ ≤ (638 - (sz (s.a / 2) + sz s.b)) * m.natAbs := Nat.mul_le_mul_right _ h1
    rw [hz]
    refine ⟨⟨by dsimp only; omega, hb1, hbodd, by dsimp only; omega, hbm, ?_,
      by dsimp only; omega, ⟨u2, hid2, ?_⟩, ⟨v, hyv, ?_⟩⟩, by dsimp only; omega⟩
    · show Int.gcd (s.a / 2) s.b = Int.gcd a0 m
      rw [gcd_half_left s.a s.b ha hae (by omega) hbodd]
      exact hgcd
    · show (dstep m s.x).natAbs + u2.natAbs ≤
        1 + (638 - (sz (s.a / 2) + sz s.b)) * m.natAbs
      omega
    · show s.y.natAbs + v.natAbs ≤ 1 + (638 - (sz (s.a / 2) + sz s.b)) * m.natAbs
      omega
  · have ha1 : 1 ≤ s.a := by omega
    by_cases hab : s.a < s.b
    · have hz : zstep m s = ⟨(s.b - s.a) / 2, s.a, dstep m (s.y - s.x), s.x⟩ := by
        simp only [zstep]
        rw [if_neg hae]
        rw [if_pos hab]
      have hsub_id : (s.y - s.x) * a0 - (v - u) * m = s.b - s.a := by linarith
      have heven2 : (s.b - s.a) % 2 = 0 := by omega
      obtain ⟨u2, hid2, hbx, hbu⟩ :=
        dstep_identity m a0 (s.b - s.a) (s.y - s.x) (v - u) hmodd hsub_id heven2
      have hdec : sz ((s.b - s.a) / 2) < sz s.b :=
        sz_lt_sz s.b ((s.b - s.a) / 2) (by omega) (by omega) (by omega)
      have hBB : (638 - (sz s.a + sz s.b)) * m.natAbs + m.natAbs ≤
          (638 - (sz ((s.b - s.a) / 2) + sz s.a)) * m.natAbs := by
        have h1 : (638 - (sz s.a + sz s.b)) + 1 ≤ 638 - (sz ((s.b - s.a) / 2) + sz s.a) := by
          omega
        calc (638 - (sz s.a + sz s.b)) * m.natAbs + m.natAbs
            = ((638 - (sz s.a + sz s.b)) + 1) * m.natAbs := by ring
          _ ≤ (638 - (sz ((s.b - s.a) / 2) + sz s.a)) * m.natAbs := Nat.mul_le_mul_right _ h1
      rw [hz]
      refine ⟨⟨by dsimp only; omega, by dsimp only; omega, by dsimp only; omega,
        by dsimp only; omega, by dsimp only; omega, ?_, by dsimp only; omega,
        ⟨u2, hid2, ?_⟩, ⟨u, hxu, ?_⟩⟩, by dsimp only; omega⟩
      · show Int.gcd ((s.b - s.a) / 2) s.a = Int.gcd a0 m
        rw [gcd_half_left (s.b - s.a) s.a (by omega) heven2 (by omega) (by omega)]
        rw [gcd_sub_left s.b s.a (by omega) (by omega)]
        rw [Int.gcd_comm]
        exact hgcd
      · show (dstep m (s.y - s.x)).natAbs + u2.natAbs ≤
          1 + (638 - (sz ((s.b - s.a) / 2) + sz s.a)) * m.natAbs
        omega
      · show s.x.natAbs + u.natAbs ≤ 1 + (638 - (sz ((s.b - s.a) / 2) + sz s.a)) * m.natAbs
        omega
    · have hz : zstep m s = ⟨(s.a - s.b) / 2, s.b, dstep m (s.x - s.y), s.y⟩ := by
        simp only [zstep]
        rw [if_neg hae]
        rw [if_neg hab]
      have hsub_id : (s.x - s.y) * a0 - (u - v) * m = s.a - s.b := by linarith
      have heven2 : (s.a - s.b) % 2 = 0 := by omega
      obtain ⟨u2, hid2, hbx, hbu⟩ :=
        dstep_identity m a0 (s.a - s.b) (s.x - s.y) (u - v) hmodd hsub_id heven2
      have hdec : sz ((s.a - s.b) / 2) < sz s.a :=
        sz_lt_sz s.a ((s.a - s.b) / 2) (by omega) (by omega) (by omega)
      have hBB : (638 - (sz s.a + sz s.b)) * m.natAbs + m.natAbs ≤
          (638 - (sz ((s.a - s.b) / 2) + sz s.b)) * m.natAbs := by
        have h1 : (638 - (sz s.a + sz s.b)) + 1 ≤ 638 - (sz ((s.a - s.b) / 2) + sz s.b) := by
          omega
        calc (638 - (sz s.a + sz s.b)) * m.natAbs + m.natAbs
            = ((638 - (sz s.a + sz s.b)) + 1) * m.natAbs := by ring
          _ ≤ (638 - (sz ((s.a - s.b) / 2) + sz s.b)) * m.natAbs := Nat.mul_le_mul_right _ h1
      rw [hz]
      refine ⟨⟨by dsimp only; omega, hb1, hbodd, by dsimp only; omega, hbm, ?_,
        by dsimp only; omega, ⟨u2, hid2, ?_⟩, ⟨v, hyv, ?_⟩⟩, by dsimp only; omega⟩
      · show Int.gcd ((s.a - s.b) / 2) s.b = Int.gcd a0 m
        rw [gcd_half_left (s.a - s.b) s.b (by omega) heven2 (by omega) hbodd]
        rw [gcd_sub_left s.a s.b (by omega) (by omega)]
        exact hgcd
      · show (dstep m (s.x - s.y)).natAbs + u2.natAbs ≤
          1 + (638 - (sz ((s.a - s.b) / 2) + sz s.b)) * m.natAbs
        omega
      · show s.y.natAbs + v.natAbs ≤ 1 + (638 - (sz ((s.a - s.b) / 2) + sz s.b)) * m.natAbs
        omega

/-- Enough fuel drives the integer loop to `a = 0` while keeping the
invariant. -/
theorem zloop_inv (m a0 : ℤ) (hmodd : m % 2 = 1) (ha0 : 0 ≤ a0) (ha0m : a0 ≤ m) :
    ∀ f s, ZInv m a0 s → sz s.a + sz s.b ≤ f →
      ZInv m a0 (zloop m f s) ∧ (zloop m f s).a = 0 := by
  intro f
  induction f with
  | zero =>
    intro s hs hsz
    have h0 : s.a = 0 := by
      have := (sz_eq_zero_iff s.a hs.1).mp (by omega)
      exact this
    exact ⟨hs, h0⟩
  | succ f ih =>
    intro s hs hsz
    by_cases h0 : s.a = 0
    · have hz : zloop m (f + 1) s = s := by simp [zloop, h0]
      rw [hz]
      exact ⟨hs, h0⟩
    · have hz : zloop m (f + 1) s = zloop m f (zstep m s) := by simp [zloop, h0]
      obtain ⟨hinv, hdec⟩ := zstep_inv m a0 hmodd ha0 ha0m s hs h0
      rw [hz]
      exact ih (zstep m s) hinv (by omega)

/-- Correspondence between a concrete `I320` loop state and an exact
integer state. -/
def ZRel (s : I320.St) (z : ZSt) : Prop :=
  s.a.Wf ∧ s.b.Wf ∧ s.x.Wf ∧ s.y.Wf ∧
    s.a.sval = z.a ∧ s.b.sval = z.b ∧ s.x.sval = z.x ∧ s.y.sval = z.y

/-- `div2_mod` refines `dstep` whenever the odd-branch addition cannot
overflow. -/
theorem div2_mod_refine (v mI : I320) (hv : v.Wf) (hmw : mI.Wf) (hm0 : 0 ≤ mI.sval)
    (hrange : v.sval + mI.sval < 2 ^ 319) :
    (v.div2_mod mI).sval = dstep mI.sval v.sval := by
  unfold dstep
  by_cases he : v.sval % 2 = 0
  · rw [if_pos he]
    exact v.sval_div2_mod_even mI hv he
  · rw [if_neg he]
    have hlo : -(2 ^ 319) ≤ v.sval + mI.sval := by
      have := v.sval_range hv
      omega
    exact v.sval_div2_mod_odd mI hv hmw he hlo hrange

/-- The invariant's budget caps both coefficients by `1 + 638*m`. -/
theorem zinv_coeff_bound (m a0 : ℤ) (z : ZSt) (h : ZInv m a0 z) :
    z.x.natAbs ≤ 1 + 638 * m.natAbs ∧ z.y.natAbs ≤ 1 + 638 * m.natAbs := by
  obtain ⟨_, _, _, _, _, _, _, ⟨u, _, hxb⟩, ⟨v, _, hyb⟩⟩ := h
  have h1 : (638 - (sz z.a + sz z.b)) * m.natAbs ≤ 638 * m.natAbs :=
    Nat.mul_le_mul_right _ (by omega)
  omega

/-- One concrete iteration refines one integer iteration, provided the
modulus leaves headroom (`m < 2^308`) for the coefficient budget. -/
theorem modinv_step_refine (mI : I320) (a0 : ℤ) (hmw : mI.Wf) (hm1 : 1 ≤ mI.sval)
    (hm308 : mI.sval < 2 ^ 308) (s : I320.St) (z : ZSt) (hrel : ZRel s z)
    (hinv : ZInv mI.sval a0 z) : ZRel (I320.modinv_step mI s) (zstep mI.sval z) := by
  obtain ⟨haw, hbw, hxw, hyw, hae, hbe, hxe, hye⟩ := hrel
  obtain ⟨hxB, hyB⟩ := zinv_coeff_bound mI.sval a0 z hinv
  obtain ⟨hza, hzb1, hzbodd, hzam, hzbm, hg, hsz, hex, hey⟩ := hinv
  have hM : mI.sval.natAbs < 2 ^ 308 := by omega
  have hx318 : z.x.natAbs < 2 ^ 318 := by omega
  have hy318 : z.y.natAbs < 2 ^ 318 := by omega
  by_cases hpar : z.a % 2 = 0
  · have heI : s.a.is_even = true := by rw [s.a.is_even_sval haw, hae]; exact hpar
    have hz1 : I320.modinv_step mI s = ⟨s.a.div2, s.b, s.x.div2_mod mI, s.y⟩ := by
      simp only [I320.modinv_step]
      rw [if_pos heI]
    have hz2 : zstep mI.sval z = ⟨z.a / 2, z.b, dstep mI.sval z.x, z.y⟩ := by
      simp only [zstep]
      rw [if_pos hpar]
    rw [hz1, hz2]
    refine ⟨s.a.div2_wf haw, hbw, s.x.div2_mod_wf mI hxw, hyw, ?_, hbe, ?_, hye⟩
    · show (s.a.div2).sval = z.a / 2
      rw [s.a.sval_div2 haw, hae]
    · show (s.x.div2_mod mI).sval = dstep mI.sval z.x
      rw [div2_mod_refine s.x mI hxw hmw (by omega) (by rw [hxe]; omega), hxe]
  · have heI : ¬ s.a.is_even = true := by rw [s.a.is_even_sval haw, hae]; exact hpar
    by_cases hlt : z.a < z.b
    · have hcmp : s.a.cmp s.b = Ordering.lt := by
        refine ((s.a.cmp_spec s.b haw hbw).1).mpr ?_
        rw [hae, hbe]
        exact hlt
      have hz1 : I320.modinv_step mI s =
          ⟨(s.b.sub_assign s.a).div2, s.a, (s.y.sub_assign s.x).div2_mod mI, s.x⟩ := by
        simp only [I320.modinv_step]
        rw [if_neg heI]
        rw [if_pos hcmp]
      have hz2 : zstep mI.sval z = ⟨(z.b - z.a) / 2, z.a, dstep mI.sval (z.y - z.x), z.x⟩ := by
        simp only [zstep]
        rw [if_neg hpar]
        rw [if_pos hlt]
      have hsubBA : (s.b.sub_assign s.a).sval = z.b - z.a := by
        rw [s.b.sval_sub_exact s.a hbw haw (by rw [hbe, hae]; omega)
          (by rw [hbe, hae]; omega), hbe, hae]
      have hsubYX : (s.y.sub_assign s.x).sval = z.y - z.x := by
        rw [s.y.sval_sub_exact s.x hyw hxw (by rw [hye, hxe]; omega)
          (by rw [hye, hxe]; omega), hye, hxe]
      rw [hz1, hz2]
      refine ⟨(s.b.sub_assign s.a).div2_wf (s.b.sub_assign_wf s.a), haw,
        (s.y.sub_assign s.x).div2_mod_wf mI (s.y.sub_assign_wf s.x), hxw, ?_, hae, ?_, hxe⟩
      · show ((s.b.sub_assign s.a).div2).sval = (z.b - z.a) / 2
        rw [(s.b.sub_assign s.a).sval_div2 (s.b.sub_assign_wf s.a), hsubBA]
      · show (((s.y.sub_assign s.x)).div2_mod mI).sval = dstep mI.sval (z.y - z.x)
        rw [div2_mod_refine (s.y.sub_assign s.x) mI (s.y.sub_assign_wf s.x) hmw (by omega)
          (by rw [hsubYX]; omega), hsubYX]
    · have hiff := (s.a.cmp_spec s.b haw hbw).1
      rw [hae, hbe] at hiff
      have hcmp : ¬ s.a.cmp s.b = Ordering.lt := by rw [hiff]; exact hlt
      have hz1 : I320.modinv_step mI s =
          ⟨(s.a.sub_assign s.b).div2, s.b, (s.x.sub_assign s.y).div2_mod mI, s.y⟩ := by
        simp only [I320.modinv_step]
        rw [if_neg heI]
        rw [if_neg hcmp]
      have hz2 : zstep mI.sval z = ⟨(z.a - z.b) / 2, z.b, dstep mI.sval (z.x - z.y), z.y⟩ := by
        simp only [zstep]
        rw [if_neg hpar]
        rw [if_neg hlt]
      have hsubAB : (s.a.sub_assign s.b).sval = z.a - z.b := by
        rw [s.a.sval_sub_exact s.b haw hbw (by rw [hbe, hae]; omega)
          (by rw [hbe, hae]; omega), hbe, hae]
      have hsubXY : (s.x.sub_assign s.y).sval = z.x - z.y := by
        rw [s.x.sval_sub_exact s.y hxw hyw (by rw [hye, hxe]; omega)
          (by rw [hye, hxe]; omega), hye, hxe]
      rw [hz1, hz2]
      refine ⟨(s.a.sub_assign s.b).div2_wf (s.a.sub_assign_wf s.b), hbw,
        (s.x.sub_assign s.y).div2_mod_wf mI (s.x.sub_assign_wf s.y), hyw, ?_, hbe, ?_, hye⟩
      · show ((s.a.sub_assign s.b).div2).sval = (z.a - z.b) / 2
        rw [(s.a.sub_assign s.b).sval_div2 (s.a.sub_assign_wf s.b), hsubAB]
      · show (((s.x.sub_assign s.y)).div2_mod mI).sval = dstep mI.sval (z.x - z.y)
        rw [div2_mod_refine (s.x.sub_assign s.y) mI (s.x.sub_assign_wf s.y) hmw (by omega)
          (by rw [hsubXY]; omega), hsubXY]

/-- The fuelled concrete loop refines the fuelled integer loop. -/
theorem modinv_loop_refine (mI : I320) (a0 : ℤ) (hmw : mI.Wf) (hmodd : mI.sval % 2 = 1)
    (hm1 : 1 ≤ mI.sval) (hm308 : mI.sval < 2 ^ 308) (ha0 : 0 ≤ a0) (ha0m : a0 ≤ mI.sval) :
    ∀ f s z, ZRel s z → ZInv mI.sval a0 z →
      ZRel (I320.modinv_loop mI f s) (zloop mI.sval f z) := by
  intro f
  induction f with
  | zero => intro s z hrel _; exact hrel
  | succ f ih =>
    intro s z hrel hinv
    by_cases h0 : z.a = 0
    · have hz : s.a.is_zero = true := by
        rw [s.a.is_zero_sval hrel.1, hrel.2.2.2.2.1]
        exact h0
      have h1 : I320.modinv_loop mI (f + 1) s = s := by simp [I320.modinv_loop, hz]
      have h2 : zloop mI.sval (f + 1) z = z := by simp [zloop, h0]
      rw [h1, h2]
      exact hrel
    · have hz : ¬ s.a.is_zero = true := by
        rw [s.a.is_zero_sval hrel.1, hrel.2.2.2.2.1]
        exact h0
      have h1 : I320.modinv_loop mI (f + 1) s =
          I320.modinv_loop mI f (I320.modinv_step mI s) := by
        simp [I320.modinv_loop, hz]
      have h2 : zloop mI.sval (f + 1) z = zloop mI.sval f (zstep mI.sval z) := by
        simp [zloop, h0]
      rw [h1, h2]
      exact ih (I320.modinv_step mI s) (zstep mI.sval z)
        (modinv_step_refine mI a0 hmw hm1 hm308 s z hrel hinv)
        (zstep_inv mI.sval a0 hmodd ha0 ha0m z hinv h0).1

/-- Running the loop on `g + f` fuel is running it on `f`, then on `g`. -/
theorem I320.modinv_loop_append (m : I320) (g f : Nat) :
    ∀ s : I320.St, I320.modinv_loop m (g + f) s = I320.modinv_loop m g (I320.modinv_loop m f s) := by
  induction f with
  | zero => intro s; rfl
  | succ f ih =>
    intro s
    by_cases h : s.a.is_zero = true
    · rw [I320.modinv_loop_of_zero m (g + (f + 1)) s h, I320.modinv_loop_of_zero m (f + 1) s h,
        I320.modinv_loop_of_zero m g s h]
    · have e1 : I320.modinv_loop m (g + (f + 1)) s =
          I320.modinv_loop m (g + f) (I320.modinv_step m s) := by
        show I320.modinv_loop m ((g + f) + 1) s = _
        simp [I320.modinv_loop, h]
      have e2 : I320.modinv_loop m (f + 1) s = I320.modinv_loop m f (I320.modinv_step m s) := by
        simp [I320.modinv_loop, h]
      rw [e1, e2, ih (I320.modinv_step m s)]

/-- Fixture `a` of the Rust test `it_modinv`, evaluated in chunks of 64 iterations. -/
theorem modinv_fixture_a :
    I320.modinv ⟨0xfffffbfefffffc2f, 0xffffffffffffffff, 0xffffffffffffffff, 0xffffffffffffffff, 0x0⟩ ⟨0xfffffffefffffc2f, 0xffffffffffffffff, 0xffffffffffffffff, 0xffffffffffffffff, 0x0⟩ =
      ⟨0xffffffff4774868d, 0xffffffffffffffff, 0xffffffffffffffff, 0xb88b76b2b3bfffff, 0x0⟩ := by
  have c0 : I320.modinv_loop ⟨0xfffffffefffffc2f, 0xffffffffffffffff, 0xffffffffffffffff, 0xffffffffffffffff, 0x0⟩ 64 ⟨⟨0xfffffbfefffffc2f, 0xffffffffffffffff, 0xffffffffffffffff, 0xffffffffffffffff, 0x0⟩, ⟨0xfffffffefffffc2f, 0xffffffffffffffff, 0xffffffffffffffff, 0xffffffffffffffff, 0x0⟩, ⟨0x1, 0x0, 0x0, 0x0, 0x0⟩, ⟨0x0, 0x0, 0x0, 0x0, 0x0⟩⟩ = ⟨⟨0xffffffffffeffbff, 0xffffffffffffffff, 0xffffffffffffffff, 0x3ffffffffff, 0x0⟩, ⟨0x1, 0x0, 0x0, 0x0, 0x0⟩, ⟨0x51917eb9, 0x0, 0x0, 0xae6e827e4c3fffff, 0xffffffffffffffff⟩, ⟨0xffffffff4774868d, 0xffffffffffffffff, 0xffffffffffffffff, 0xb88b76b2b3bfffff, 0x0⟩⟩ := by decide
  have c1 : I320.modinv_loop ⟨0xfffffffefffffc2f, 0xffffffffffffffff, 0xffffffffffffffff, 0xffffffffffffffff, 0x0⟩ 64 ⟨⟨0xffffffffffeffbff, 0xffffffffffffffff, 0xffffffffffffffff, 0x3ffffffffff, 0x0⟩, ⟨0x1, 0x0, 0x0, 0x0, 0x0⟩, ⟨0x51917eb9, 0x0, 0x0, 0xae6e827e4c3fffff, 0xffffffffffffffff⟩, ⟨0xffffffff4774868d, 0xffffffffffffffff, 0xffffffffffffffff, 0xb88b76b2b3bfffff, 0x0⟩⟩ = ⟨⟨0xffffffffffffffff, 0xffffffffffffffff, 0x3ffffffffff, 0x0, 0x0⟩, ⟨0x1, 0x0, 0x0, 0x0, 0x0⟩, ⟨0xffffffffb88b75a2, 0xffffffffffffffff, 0xfffffffffffffffe, 0x4774894d4c3fffff, 0x0⟩, ⟨0xffffffff4774868d, 0xffffffffffffffff, 0xffffffffffffffff, 0xb88b76b2b3bfffff, 0x0⟩⟩ := by decide
  have c2 : I320.modinv_loop ⟨0xfffffffefffffc2f, 0xffffffffffffffff, 0xffffffffffffffff, 0xffffffffffffffff, 0x0⟩ 64 ⟨⟨0xffffffffffffffff, 0xffffffffffffffff, 0x3ffffffffff, 0x0, 0x0⟩, ⟨0x1, 0x0, 0x0, 0x0, 0x0⟩, ⟨0xffffffffb88b75a2, 0xffffffffffffffff, 0xfffffffffffffffe, 0x4774894d4c3fffff, 0x0⟩, ⟨0xffffffff4774868d, 0xffffffffffffffff, 0xffffffffffffffff, 0xb88b76b2b3bfffff, 0x0⟩⟩ = ⟨⟨0xffffffffffffffff, 0x3ffffffffff, 0x0, 0x0, 0x0⟩, ⟨0x1, 0x0, 0x0, 0x0, 0x0⟩, ⟨0xffffffffb88b75a2, 0xfffffffffffffffe, 0xffffffffffffffff, 0x4774894d4c3fffff, 0x0⟩, ⟨0xffffffff4774868d, 0xffffffffffffffff, 0xffffffffffffffff, 0xb88b76b2b3bfffff, 0x0⟩⟩ := by decide
  have c3 : I320.modinv_loop ⟨0xfffffffefffffc2f, 0xffffffffffffffff, 0xffffffffffffffff, 0xffffffffffffffff, 0x0⟩ 64 ⟨⟨0xffffffffffffffff, 0x3ffffffffff, 0x0, 0x0, 0x0⟩, ⟨0x1, 0x0, 0x0, 0x0, 0x0⟩, ⟨0xffffffffb88b75a2, 0xfffffffffffffffe, 0xffffffffffffffff, 0x4774894d4c3fffff, 0x0⟩, ⟨0xffffffff4774868d, 0xffffffffffffffff, 0xffffffffffffffff, 0xb88b76b2b3bfffff, 0x0⟩⟩ = ⟨⟨0x3ffffffffff, 0x0, 0x0, 0x0, 0x0⟩, ⟨0x1, 0x0, 0x0, 0x0, 0x0⟩, ⟨0xffffffffb88b75a1, 0xffffffffffffffff, 0xffffffffffffffff, 0x4774894d4c3fffff, 0x0⟩, ⟨0xffffffff4774868d, 0xffffffffffffffff, 0xffffffffffffffff, 0xb88b76b2b3bfffff, 0x0⟩⟩ := by decide
  have c4 : I320.modinv_loop ⟨0xfffffffefffffc2f, 0xffffffffffffffff, 0xffffffffffffffff, 0xffffffffffffffff, 0x0⟩ 64 ⟨⟨0x3ffffffffff, 0x0, 0x0, 0x0, 0x0⟩, ⟨0x1, 0x0, 0x0, 0x0, 0x0⟩, ⟨0xffffffffb88b75a1, 0xffffffffffffffff, 0xffffffffffffffff, 0x4774894d4c3fffff, 0x0⟩, ⟨0xffffffff4774868d, 0xffffffffffffffff, 0xffffffffffffffff, 0xb88b76b2b3bfffff, 0x0⟩⟩ = ⟨⟨0x0, 0x0, 0x0, 0x0, 0x0⟩, ⟨0x1, 0x0, 0x0, 0x0, 0x0⟩, ⟨0x0, 0x0, 0x0, 0x0, 0x0⟩, ⟨0xffffffff4774868d, 0xffffffffffffffff, 0xffffffffffffffff, 0xb88b76b2b3bfffff, 0x0⟩⟩ := by decide
  show (I320.modinv_loop ⟨0xfffffffefffffc2f, 0xffffffffffffffff, 0xffffffffffffffff, 0xffffffffffffffff, 0x0⟩ 640 ⟨⟨0xfffffbfefffffc2f, 0xffffffffffffffff, 0xffffffffffffffff, 0xffffffffffffffff, 0x0⟩, ⟨0xfffffffefffffc2f, 0xffffffffffffffff, 0xffffffffffffffff, 0xffffffffffffffff, 0x0⟩, ⟨0x1, 0x0, 0x0, 0x0, 0x0⟩, ⟨0x0, 0x0, 0x0, 0x0, 0x0⟩⟩).y = _
  rw [show (640 : Nat) = 576 + 64 from rfl, I320.modinv_loop_append ⟨0xfffffffefffffc2f, 0xffffffffffffffff, 0xffffffffffffffff, 0xffffffffffffffff, 0x0⟩ 576 64 ⟨⟨0xfffffbfefffffc2f, 0xffffffffffffffff, 0xffffffffffffffff, 0xffffffffffffffff, 0x0⟩, ⟨0xfffffffefffffc2f, 0xffffffffffffffff, 0xffffffffffffffff, 0xffffffffffffffff, 0x0⟩, ⟨0x1, 0x0, 0x0, 0x0, 0x0⟩, ⟨0x0, 0x0, 0x0, 0x0, 0x0⟩⟩, c0]
  rw [show (576 : Nat) = 512 + 64 from rfl, I320.modinv_loop_append ⟨0xfffffffefffffc2f, 0xffffffffffffffff, 0xffffffffffffffff, 0xffffffffffffffff, 0x0⟩ 512 64 ⟨⟨0xffffffffffeffbff, 0xffffffffffffffff, 0xffffffffffffffff, 0x3ffffffffff, 0x0⟩, ⟨0x1, 0x0, 0x0, 0x0, 0x0⟩, ⟨0x51917eb9, 0x0, 0x0, 0xae6e827e4c3fffff, 0xffffffffffffffff⟩, ⟨0xffffffff4774868d, 0xffffffffffffffff, 0xffffffffffffffff, 0xb88b76b2b3bfffff, 0x0⟩⟩, c1]
  rw [show (512 : Nat) = 448 + 64 from rfl, I320.modinv_loop_append ⟨0xfffffffefffffc2f, 0xffffffffffffffff, 0xffffffffffffffff, 0xffffffffffffffff, 0x0⟩ 448 64 ⟨⟨0xffffffffffffffff, 0xffffffffffffffff, 0x3ffffffffff, 0x0, 0x0⟩, ⟨0x1, 0x0, 0x0, 0x0, 0x0⟩, ⟨0xffffffffb88b75a2, 0xffffffffffffffff, 0xfffffffffffffffe, 0x4774894d4c3fffff, 0x0⟩, ⟨0xffffffff4774868d, 0xffffffffffffffff, 0xffffffffffffffff, 0xb88b76b2b3bfffff, 0x0⟩⟩, c2]
  rw [show (448 : Nat) = 384 + 64 from rfl, I320.modinv_loop_append ⟨0xfffffffefffffc2f, 0xffffffffffffffff, 0xffffffffffffffff, 0xffffffffffffffff, 0x0⟩ 384 64 ⟨⟨0xffffffffffffffff, 0x3ffffffffff, 0x0, 0x0, 0x0⟩, ⟨0x1, 0x0, 0x0, 0x0, 0x0⟩, ⟨0xffffffffb88b75a2, 0xfffffffffffffffe, 0xffffffffffffffff, 0x4774894d4c3fffff, 0x0⟩, ⟨0xffffffff4774868d, 0xffffffffffffffff, 0xffffffffffffffff, 0xb88b76b2b3bfffff, 0x0⟩⟩, c3]
  rw [show (384 : Nat) = 320 + 64 from rfl, I320.modinv_loop_append ⟨0xfffffffefffffc2f, 0xffffffffffffffff, 0xffffffffffffffff, 0xffffffffffffffff, 0x0⟩ 320 64 ⟨⟨0x3ffffffffff, 0x0, 0x0, 0x0, 0x0⟩, ⟨0x1, 0x0, 0x0, 0x0, 0x0⟩, ⟨0xffffffffb88b75a1, 0xffffffffffffffff, 0xffffffffffffffff, 0x4774894d4c3fffff, 0x0⟩, ⟨0xffffffff4774868d, 0xffffffffffffffff, 0xffffffffffffffff, 0xb88b76b2b3bfffff, 0x0⟩⟩, c4]
  rw [I320.modinv_loop_of_zero ⟨0xfffffffefffffc2f, 0xffffffffffffffff, 0xffffffffffffffff, 0xffffffffffffffff, 0x0⟩ 320 ⟨⟨0x0, 0x0, 0x0, 0x0, 0x0⟩, ⟨0x1, 0x0, 0x0, 0x0, 0x0⟩, ⟨0x0, 0x0, 0x0, 0x0, 0x0⟩, ⟨0xffffffff4774868d, 0xffffffffffffffff, 0xffffffffffffffff, 0xb88b76b2b3bfffff, 0x0⟩⟩ (by decide)]

/-- Fixture `b` of the Rust test `it_modinv`, evaluated in chunks of 64 iterations. -/
theorem modinv_fixture_b :
    I320.modinv ⟨0xffffffff7ffffe18, 0xffffffffffffffff, 0xffffffffffffffff, 0x7fffffffffffffff, 0x0⟩ ⟨0xfffffffefffffc2f, 0xffffffffffffffff, 0xffffffffffffffff, 0xffffffffffffffff, 0x0⟩ =
      ⟨0x2, 0x0, 0x0, 0x0, 0x0⟩ := by
  have c0 : I320.modinv_loop ⟨0xfffffffefffffc2f, 0xffffffffffffffff, 0xffffffffffffffff, 0xffffffffffffffff, 0x0⟩ 64 ⟨⟨0xffffffff7ffffe18, 0xffffffffffffffff, 0xffffffffffffffff, 0x7fffffffffffffff, 0x0⟩, ⟨0xfffffffefffffc2f, 0xffffffffffffffff, 0xffffffffffffffff, 0xffffffffffffffff, 0x0⟩, ⟨0x1, 0x0, 0x0, 0x0, 0x0⟩, ⟨0x0, 0x0, 0x0, 0x0, 0x0⟩⟩ = ⟨⟨0x0, 0x0, 0x8000000000000000, 0x0, 0x0⟩, ⟨0xffffffffffffffff, 0xffffffffffffffff, 0xffffffffffffffff, 0xfffffbff, 0x0⟩, ⟨0x0, 0x0, 0x0, 0x1, 0x0⟩, ⟨0xfffffffffffffffe, 0xffffffffffffffff, 0xffffffffffffffff, 0x1fffff7ff, 0x0⟩⟩ := by decide
  have c1 : I320.modinv_loop ⟨0xfffffffefffffc2f, 0xffffffffffffffff, 0xffffffffffffffff, 0xffffffffffffffff, 0x0⟩ 64 ⟨⟨0x0, 0x0, 0x8000000000000000, 0x0, 0x0⟩, ⟨0xffffffffffffffff, 0xffffffffffffffff, 0xffffffffffffffff, 0xfffffbff, 0x0⟩, ⟨0x0, 0x0, 0x0, 0x1, 0x0⟩, ⟨0xfffffffffffffffe, 0xffffffffffffffff, 0xffffffffffffffff, 0x1fffff7ff, 0x0⟩⟩ = ⟨⟨0x0, 0x8000000000000000, 0x0, 0x0, 0x0⟩, ⟨0xffffffffffffffff, 0xffffffffffffffff, 0xffffffffffffffff, 0xfffffbff, 0x0⟩, ⟨0x0, 0x0, 0x1, 0x0, 0x0⟩, ⟨0xfffffffffffffffe, 0xffffffffffffffff, 0xffffffffffffffff, 0x1fffff7ff, 0x0⟩⟩ := by decide
  have c2 : I320.modinv_loop ⟨0xfffffffefffffc2f, 0xffffffffffffffff, 0xffffffffffffffff, 0xffffffffffffffff, 0x0⟩ 64 ⟨⟨0x0, 0x8000000000000000, 0x0, 0x0, 0x0⟩, ⟨0xffffffffffffffff, 0xffffffffffffffff, 0xffffffffffffffff, 0xfffffbff, 0x0⟩, ⟨0x0, 0x0, 0x1, 0x0, 0x0⟩, ⟨0xfffffffffffffffe, 0xffffffffffffffff, 0xffffffffffffffff, 0x1fffff7ff, 0x0⟩⟩ = ⟨⟨0x8000000000000000, 0x0, 0x0, 0x0, 0x0⟩, ⟨0xffffffffffffffff, 0xffffffffffffffff, 0xffffffffffffffff, 0xfffffbff, 0x0⟩, ⟨0x0, 0x1, 0x0, 0x0, 0x0⟩, ⟨0xfffffffffffffffe, 0xffffffffffffffff, 0xffffffffffffffff, 0x1fffff7ff, 0x0⟩⟩ := by decide
  have c3 : I320.modinv_loop ⟨0xfffffffefffffc2f, 0xffffffffffffffff, 0xffffffffffffffff, 0xffffffffffffffff, 0x0⟩ 64 ⟨⟨0x8000000000000000, 0x0, 0x0, 0x0, 0x0⟩, ⟨0xffffffffffffffff, 0xffffffffffffffff, 0xffffffffffffffff, 0xfffffbff, 0x0⟩, ⟨0x0, 0x1, 0x0, 0x0, 0x0⟩, ⟨0xfffffffffffffffe, 0xffffffffffffffff, 0xffffffffffffffff, 0x1fffff7ff, 0x0⟩⟩ = ⟨⟨0xffffffffffffffff, 0xffffffffffffffff, 0xffffffffffffffff, 0x7ffffdff, 0x0⟩, ⟨0x1, 0x0, 0x0, 0x0, 0x0⟩, ⟨0xfffffffffffffffe, 0xffffffffffffffff, 0xffffffffffffffff, 0xfffffbff, 0x0⟩, ⟨0x2, 0x0, 0x0, 0x0, 0x0⟩⟩ := by decide
  have c4 : I320.modinv_loop ⟨0xfffffffefffffc2f, 0xffffffffffffffff, 0xffffffffffffffff, 0xffffffffffffffff, 0x0⟩ 64 ⟨⟨0xffffffffffffffff, 0xffffffffffffffff, 0xffffffffffffffff, 0x7ffffdff, 0x0⟩, ⟨0x1, 0x0, 0x0, 0x0, 0x0⟩, ⟨0xfffffffffffffffe, 0xffffffffffffffff, 0xffffffffffffffff, 0xfffffbff, 0x0⟩, ⟨0x2, 0x0, 0x0, 0x0, 0x0⟩⟩ = ⟨⟨0xffffffffffffffff, 0xffffffffffffffff, 0x7ffffdff, 0x0, 0x0⟩, ⟨0x1, 0x0, 0x0, 0x0, 0x0⟩, ⟨0xfffffffffffffffe, 0xffffffffffffffff, 0xfffffbff, 0x0, 0x0⟩, ⟨0x2, 0x0, 0x0, 0x0, 0x0⟩⟩ := by decide
  have c5 : I320.modinv_loop ⟨0xfffffffefffffc2f, 0xffffffffffffffff, 0xffffffffffffffff, 0xffffffffffffffff, 0x0⟩ 64 ⟨⟨0xffffffffffffffff, 0xffffffffffffffff, 0x7ffffdff, 0x0, 0x0⟩, ⟨0x1, 0x0, 0x0, 0x0, 0x0⟩, ⟨0xfffffffffffffffe, 0xffffffffffffffff, 0xfffffbff, 0x0, 0x0⟩, ⟨0x2, 0x0, 0x0, 0x0, 0x0⟩⟩ = ⟨⟨0xffffffffffffffff, 0x7ffffdff, 0x0, 0x0, 0x0⟩, ⟨0x1, 0x0, 0x0, 0x0, 0x0⟩, ⟨0xfffffffffffffffe, 0xfffffbff, 0x0, 0x0, 0x0⟩, ⟨0x2, 0x0, 0x0, 0x0, 0x0⟩⟩ := by decide
  have c6 : I320.modinv_loop ⟨0xfffffffefffffc2f, 0xffffffffffffffff, 0xffffffffffffffff, 0xffffffffffffffff, 0x0⟩ 64 ⟨⟨0xffffffffffffffff, 0x7ffffdff, 0x0, 0x0, 0x0⟩, ⟨0x1, 0x0, 0x0, 0x0, 0x0⟩, ⟨0xfffffffffffffffe, 0xfffffbff, 0x0, 0x0, 0x0⟩, ⟨0x2, 0x0, 0x0, 0x0, 0x0⟩⟩ = ⟨⟨0x7ffffdff, 0x0, 0x0, 0x0, 0x0⟩, ⟨0x1, 0x0, 0x0, 0x0, 0x0⟩, ⟨0xfffffbfe, 0x0, 0x0, 0x0, 0x0⟩, ⟨0x2, 0x0, 0x0, 0x0, 0x0⟩⟩ := by decide
  have c7 : I320.modinv_loop ⟨0xfffffffefffffc2f, 0xffffffffffffffff, 0xffffffffffffffff, 0xffffffffffffffff, 0x0⟩ 64 ⟨⟨0x7ffffdff, 0x0, 0x0, 0x0, 0x0⟩, ⟨0x1, 0x0, 0x0, 0x0, 0x0⟩, ⟨0xfffffbfe, 0x0, 0x0, 0x0, 0x0⟩, ⟨0x2, 0x0, 0x0, 0x0, 0x0⟩⟩ = ⟨⟨0x0, 0x0, 0x0, 0x0, 0x0⟩, ⟨0x1, 0x0, 0x0, 0x0, 0x0⟩, ⟨0x0, 0x0, 0x0, 0x0, 0x0⟩, ⟨0x2, 0x0, 0x0, 0x0, 0x0⟩⟩ := by decide
  show (I320.modinv_loop ⟨0xfffffffefffffc2f, 0xffffffffffffffff, 0xffffffffffffffff, 0xffffffffffffffff, 0x0⟩ 640 ⟨⟨0xffffffff7ffffe18, 0xffffffffffffffff, 0xffffffffffffffff, 0x7fffffffffffffff, 0x0⟩, ⟨0xfffffffefffffc2f, 0xffffffffffffffff, 0xffffffffffffffff, 0xffffffffffffffff, 0x0⟩, ⟨0x1, 0x0, 0x0, 0x0, 0x0⟩, ⟨0x0, 0x0, 0x0, 0x0, 0x0⟩⟩).y = _
  rw [show (640 : Nat) = 576 + 64 from rfl, I320.modinv_loop_append ⟨0xfffffffefffffc2f, 0xffffffffffffffff, 0xffffffffffffffff, 0xffffffffffffffff, 0x0⟩ 576 64 ⟨⟨0xffffffff7ffffe18, 0xffffffffffffffff, 0xffffffffffffffff, 0x7fffffffffffffff, 0x0⟩, ⟨0xfffffffefffffc2f, 0xffffffffffffffff, 0xffffffffffffffff, 0xffffffffffffffff, 0x0⟩, ⟨0x1, 0x0, 0x0, 0x0, 0x0⟩, ⟨0x0, 0x0, 0x0, 0x0, 0x0⟩⟩, c0]
  rw [show (576 : Nat) = 512 + 64 from rfl, I320.modinv_loop_append ⟨0xfffffffefffffc2f, 0xffffffffffffffff, 0xffffffffffffffff, 0xffffffffffffffff, 0x0⟩ 512 64 ⟨⟨0x0, 0x0, 0x8000000000000000, 0x0, 0x0⟩, ⟨0xffffffffffffffff, 0xffffffffffffffff, 0xffffffffffffffff, 0xfffffbff, 0x0⟩, ⟨0x0, 0x0, 0x0, 0x1, 0x0⟩, ⟨0xfffffffffffffffe, 0xffffffffffffffff, 0xffffffffffffffff, 0x1fffff7ff, 0x0⟩⟩, c1]
  rw [show (512 : Nat) = 448 + 64 from rfl, I320.modinv_loop_append ⟨0xfffffffefffffc2f, 0xffffffffffffffff, 0xffffffffffffffff, 0xffffffffffffffff, 0x0⟩ 448 64 ⟨⟨0x0, 0x8000000000000000, 0x0, 0x0, 0x0⟩, ⟨0xffffffffffffffff, 0xffffffffffffffff, 0xffffffffffffffff, 0xfffffbff, 0x0⟩, ⟨0x0, 0x0, 0x1, 0x0, 0x0⟩, ⟨0xfffffffffffffffe, 0xffffffffffffffff, 0xffffffffffffffff, 0x1fffff7ff, 0x0⟩⟩, c2]
  rw [show (448 : Nat) = 384 + 64 from rfl, I320.modinv_loop_append ⟨0xfffffffefffffc2f, 0xffffffffffffffff, 0xffffffffffffffff, 0xffffffffffffffff, 0x0⟩ 384 64 ⟨⟨0x8000000000000000, 0x0, 0x0, 0x0, 0x0⟩, ⟨0xffffffffffffffff, 0xffffffffffffffff, 0xffffffffffffffff, 0xfffffbff, 0x0⟩, ⟨0x0, 0x1, 0x0, 0x0, 0x0⟩, ⟨0xfffffffffffffffe, 0xffffffffffffffff, 0xffffffffffffffff, 0x1fffff7ff, 0x0⟩⟩, c3]
  rw [show (384 : Nat) = 320 + 64 from rfl, I320.modinv_loop_append ⟨0xfffffffefffffc2f, 0xffffffffffffffff, 0xffffffffffffffff, 0xffffffffffffffff, 0x0⟩ 320 64 ⟨⟨0xffffffffffffffff, 0xffffffffffffffff, 0xffffffffffffffff, 0x7ffffdff, 0x0⟩, ⟨0x1, 0x0, 0x0, 0x0, 0x0⟩, ⟨0xfffffffffffffffe, 0xffffffffffffffff, 0xffffffffffffffff, 0xfffffbff, 0x0⟩, ⟨0x2, 0x0, 0x0, 0x0, 0x0⟩⟩, c4]
  rw [show (320 : Nat) = 256 + 64 from rfl, I320.modinv_loop_append ⟨0xfffffffefffffc2f, 0xffffffffffffffff, 0xffffffffffffffff, 0xffffffffffffffff, 0x0⟩ 256 64 ⟨⟨0xffffffffffffffff, 0xffffffffffffffff, 0x7ffffdff, 0x0, 0x0⟩, ⟨0x1, 0x0, 0x0, 0x0, 0x0⟩, ⟨0xfffffffffffffffe, 0xffffffffffffffff, 0xfffffbff, 0x0, 0x0⟩, ⟨0x2, 0x0, 0x0, 0x0, 0x0⟩⟩, c5]
  rw [show (256 : Nat) = 192 + 64 from rfl, I320.modinv_loop_append ⟨0xfffffffefffffc2f, 0xffffffffffffffff, 0xffffffffffffffff, 0xffffffffffffffff, 0x0⟩ 192 64 ⟨⟨0xffffffffffffffff, 0x7ffffdff, 0x0, 0x0, 0x0⟩, ⟨0x1, 0x0, 0x0, 0x0, 0x0⟩, ⟨0xfffffffffffffffe, 0xfffffbff, 0x0, 0x0, 0x0⟩, ⟨0x2, 0x0, 0x0, 0x0, 0x0⟩⟩, c6]
  rw [show (192 : Nat) = 128 + 64 from rfl, I320.modinv_loop_append ⟨0xfffffffefffffc2f, 0xffffffffffffffff, 0xffffffffffffffff, 0xffffffffffffffff, 0x0⟩ 128 64 ⟨⟨0x7ffffdff, 0x0, 0x0, 0x0, 0x0⟩, ⟨0x1, 0x0, 0x0, 0x0, 0x0⟩, ⟨0xfffffbfe, 0x0, 0x0, 0x0, 0x0⟩, ⟨0x2, 0x0, 0x0, 0x0, 0x0⟩⟩, c7]
  rw [I320.modinv_loop_of_zero ⟨0xfffffffefffffc2f, 0xffffffffffffffff, 0xffffffffffffffff, 0xffffffffffffffff, 0x0⟩ 128 ⟨⟨0x0, 0x0, 0x0, 0x0, 0x0⟩, ⟨0x1, 0x0, 0x0, 0x0, 0x0⟩, ⟨0x0, 0x0, 0x0, 0x0, 0x0⟩, ⟨0x2, 0x0, 0x0, 0x0, 0x0⟩⟩ (by decide)]

/-- Fixture `c` of the Rust test `it_modinv`, evaluated in chunks of 64 iterations. -/
theorem modinv_fixture_c :
    I320.modinv ⟨0x111111, 0x0, 0x0, 0x0, 0x0⟩ ⟨0xfffffffefffffc2f, 0xffffffffffffffff, 0xffffffffffffffff, 0xffffffffffffffff, 0x0⟩ =
      ⟨0x3eb0f23e72414b83, 0xb0f23eb0f23eb0f2, 0xf23eb0f23eb0f23e, 0x3eb0f23eb0f23eb0, 0x0⟩ := by
  have c0 : I320.modinv_loop ⟨0xfffffffefffffc2f, 0xffffffffffffffff, 0xffffffffffffffff, 0xffffffffffffffff, 0x0⟩ 64 ⟨⟨0x111111, 0x0, 0x0, 0x0, 0x0⟩, ⟨0xfffffffefffffc2f, 0xffffffffffffffff, 0xffffffffffffffff, 0xffffffffffffffff, 0x0⟩, ⟨0x1, 0x0, 0x0, 0x0, 0x0⟩, ⟨0x0, 0x0, 0x0, 0x0, 0x0⟩⟩ = ⟨⟨0xfffffffffffb2f00, 0xffffffffffffffff, 0xffffffffffffffff, 0x0, 0x0⟩, ⟨0x111111, 0x0, 0x0, 0x0, 0x0⟩, ⟨0xffffffff000efc2f, 0xffffffffffffffff, 0xffffffffffffffff, 0xfff0fffff0fffff0, 0x0⟩, ⟨0x1, 0x0, 0x0, 0x0, 0x0⟩⟩ := by decide
  have c1 : I320.modinv_loop ⟨0xfffffffefffffc2f, 0xffffffffffffffff, 0xffffffffffffffff, 0xffffffffffffffff, 0x0⟩ 64 ⟨⟨0xfffffffffffb2f00, 0xffffffffffffffff, 0xffffffffffffffff, 0x0, 0x0⟩, ⟨0x111111, 0x0, 0x0, 0x0, 0x0⟩, ⟨0xffffffff000efc2f, 0xffffffffffffffff, 0xffffffffffffffff, 0xfff0fffff0fffff0, 0x0⟩, ⟨0x1, 0x0, 0x0, 0x0, 0x0⟩⟩ = ⟨⟨0xfffffffffffbccc8, 0xffffffffffffffff, 0x0, 0x0, 0x0⟩, ⟨0x111111, 0x0, 0x0, 0x0, 0x0⟩, ⟨0xffffffff0efffc77, 0xffffffffffffffff, 0xfff0fffff0fffff0, 0xf0fffff0fffff0ff, 0x0⟩, ⟨0x1, 0x0, 0x0, 0x0, 0x0⟩⟩ := by decide
  have c2 : I320.modinv_loop ⟨0xfffffffefffffc2f, 0xffffffffffffffff, 0xffffffffffffffff, 0xffffffffffffffff, 0x0⟩ 64 ⟨⟨0xfffffffffffbccc8, 0xffffffffffffffff, 0x0, 0x0, 0x0⟩, ⟨0x111111, 0x0, 0x0, 0x0, 0x0⟩, ⟨0xffffffff0efffc77, 0xffffffffffffffff, 0xfff0fffff0fffff0, 0xf0fffff0fffff0ff, 0x0⟩, ⟨0x1, 0x0, 0x0, 0x0, 0x0⟩⟩ = ⟨⟨0xfffffffffffffb2f, 0x0, 0x0, 0x0, 0x0⟩, ⟨0x111111, 0x0, 0x0, 0x0, 0x0⟩, ⟨0xffffffff00000b2f, 0xfff0fffff0fffff0, 0xf0fffff0fffff0ff, 0xfffff0fffff0ffff, 0x0⟩, ⟨0x1, 0x0, 0x0, 0x0, 0x0⟩⟩ := by decide
  have c3 : I320.modinv_loop ⟨0xfffffffefffffc2f, 0xffffffffffffffff, 0xffffffffffffffff, 0xffffffffffffffff, 0x0⟩ 64 ⟨⟨0xfffffffffffffb2f, 0x0, 0x0, 0x0, 0x0⟩, ⟨0x111111, 0x0, 0x0, 0x0, 0x0⟩, ⟨0xffffffff00000b2f, 0xfff0fffff0fffff0, 0xf0fffff0fffff0ff, 0xfffff0fffff0ffff, 0x0⟩, ⟨0x1, 0x0, 0x0, 0x0, 0x0⟩⟩ = ⟨⟨0xf2, 0x0, 0x0, 0x0, 0x0⟩, ⟨0x5d, 0x0, 0x0, 0x0, 0x0⟩, ⟨0x4344ff4301ba4301, 0x44ff4344ff4344ff, 0xff4344ff4344ff43, 0x4344ff4344ff4344, 0x0⟩, ⟨0xc64800c581b8c28d, 0x4800c64800c64800, 0xc64800c64800c6, 0xc64800c64800c648, 0x0⟩⟩ := by decide
  have c4 : I320.modinv_loop ⟨0xfffffffefffffc2f, 0xffffffffffffffff, 0xffffffffffffffff, 0xffffffffffffffff, 0x0⟩ 64 ⟨⟨0xf2, 0x0, 0x0, 0x0, 0x0⟩, ⟨0x5d, 0x0, 0x0, 0x0, 0x0⟩, ⟨0x4344ff4301ba4301, 0x44ff4344ff4344ff, 0xff4344ff4344ff43, 0x4344ff4344ff4344, 0x0⟩, ⟨0xc64800c581b8c28d, 0x4800c64800c64800, 0xc64800c64800c6, 0xc64800c64800c648, 0x0⟩⟩ = ⟨⟨0x0, 0x0, 0x0, 0x0, 0x0⟩, ⟨0x1, 0x0, 0x0, 0x0, 0x0⟩, ⟨0x0, 0x0, 0x0, 0x0, 0x0⟩, ⟨0x3eb0f23e72414b83, 0xb0f23eb0f23eb0f2, 0xf23eb0f23eb0f23e, 0x3eb0f23eb0f23eb0, 0x0⟩⟩ := by decide
  show (I320.modinv_loop ⟨0xfffffffefffffc2f, 0xffffffffffffffff, 0xffffffffffffffff, 0xffffffffffffffff, 0x0⟩ 640 ⟨⟨0x111111, 0x0, 0x0, 0x0, 0x0⟩, ⟨0xfffffffefffffc2f, 0xffffffffffffffff, 0xffffffffffffffff, 0xffffffffffffffff, 0x0⟩, ⟨0x1, 0x0, 0x0, 0x0, 0x0⟩, ⟨0x0, 0x0, 0x0, 0x0, 0x0⟩⟩).y = _
  rw [show (640 : Nat) = 576 + 64 from rfl, I320.modinv_loop_append ⟨0xfffffffefffffc2f, 0xffffffffffffffff, 0xffffffffffffffff, 0xffffffffffffffff, 0x0⟩ 576 64 ⟨⟨0x111111, 0x0, 0x0, 0x0, 0x0⟩, ⟨0xfffffffefffffc2f, 0xffffffffffffffff, 0xffffffffffffffff, 0xffffffffffffffff, 0x0⟩, ⟨0x1, 0x0, 0x0, 0x0, 0x0⟩, ⟨0x0, 0x0, 0x0, 0x0, 0x0⟩⟩, c0]
  rw [show (576 : Nat) = 512 + 64 from rfl, I320.modinv_loop_append ⟨0xfffffffefffffc2f, 0xffffffffffffffff, 0xffffffffffffffff, 0xffffffffffffffff, 0x0⟩ 512 64 ⟨⟨0xfffffffffffb2f00, 0xffffffffffffffff, 0xffffffffffffffff, 0x0, 0x0⟩, ⟨0x111111, 0x0, 0x0, 0x0, 0x0⟩, ⟨0xffffffff000efc2f, 0xffffffffffffffff, 0xffffffffffffffff, 0xfff0fffff0fffff0, 0x0⟩, ⟨0x1, 0x0, 0x0, 0x0, 0x0⟩⟩, c1]
  rw [show (512 : Nat) = 448 + 64 from rfl, I320.modinv_loop_append ⟨0xfffffffefffffc2f, 0xffffffffffffffff, 0xffffffffffffffff, 0xffffffffffffffff, 0x0⟩ 448 64 ⟨⟨0xfffffffffffbccc8, 0xffffffffffffffff, 0x0, 0x0, 0x0⟩, ⟨0x111111, 0x0, 0x0, 0x0, 0x0⟩, ⟨0xffffffff0efffc77, 0xffffffffffffffff, 0xfff0fffff0fffff0, 0xf0fffff0fffff0ff, 0x0⟩, ⟨0x1, 0x0, 0x0, 0x0, 0x0⟩⟩, c2]
  rw [show (448 : Nat) = 384 + 64 from rfl, I320.modinv_loop_append ⟨0xfffffffefffffc2f, 0xffffffffffffffff, 0xffffffffffffffff, 0xffffffffffffffff, 0x0⟩ 384 64 ⟨⟨0xfffffffffffffb2f, 0x0, 0x0, 0x0, 0x0⟩, ⟨0x111111, 0x0, 0x0, 0x0, 0x0⟩, ⟨0xffffffff00000b2f, 0xfff0fffff0fffff0, 0xf0fffff0fffff0ff, 0xfffff0fffff0ffff, 0x0⟩, ⟨0x1, 0x0, 0x0, 0x0, 0x0⟩⟩, c3]
  rw [show (384 : Nat) = 320 + 64 from rfl, I320.modinv_loop_append ⟨0xfffffffefffffc2f, 0xffffffffffffffff, 0xffffffffffffffff, 0xffffffffffffffff, 0x0⟩ 320 64 ⟨⟨0xf2, 0x0, 0x0, 0x0, 0x0⟩, ⟨0x5d, 0x0, 0x0, 0x0, 0x0⟩, ⟨0x4344ff4301ba4301, 0x44ff4344ff4344ff, 0xff4344ff4344ff43, 0x4344ff4344ff4344, 0x0⟩, ⟨0xc64800c581b8c28d, 0x4800c64800c64800, 0xc64800c64800c6, 0xc64800c64800c648, 0x0⟩⟩, c4]
  rw [I320.modinv_loop_of_zero ⟨0xfffffffefffffc2f, 0xffffffffffffffff, 0xffffffffffffffff, 0xffffffffffffffff, 0x0⟩ 320 ⟨⟨0x0, 0x0, 0x0, 0x0, 0x0⟩, ⟨0x1, 0x0, 0x0, 0x0, 0x0⟩, ⟨0x0, 0x0, 0x0, 0x0, 0x0⟩, ⟨0x3eb0f23e72414b83, 0xb0f23eb0f23eb0f2, 0xf23eb0f23eb0f23e, 0x3eb0f23eb0f23eb0, 0x0⟩⟩ (by decide)]

/-- Claim C1, counterexample: at `a = 27`, `m = 101` every precondition
of the claim holds (positive odd modulus, `0 <= a < m`, coprime), yet
`modinv` returns the representative `116`, which does not lie in
`[0, m)`: the result is only congruent to the inverse, not canonical. -/
theorem claim_C1_counterexample :
    0 ≤ (I320.new 0 0 0 0 27).sval ∧
      (I320.new 0 0 0 0 27).sval < (I320.new 0 0 0 0 101).sval ∧
      (I320.new 0 0 0 0 101).sval % 2 = 1 ∧ 0 < (I320.new 0 0 0 0 101).sval ∧
      Int.gcd (I320.new 0 0 0 0 27).sval (I320.new 0 0 0 0 101).sval = 1 ∧
      ¬ ((I320.modinv (I320.new 0 0 0 0 27) (I320.new 0 0 0 0 101)).sval <
        (I320.new 0 0 0 0 101).sval) := by decide

/-- Claim C1, amended: for a positive odd modulus `m < 2^308` (headroom
for the coefficient budget; near `2^319` the coefficient updates can
wrap and corrupt the result) and `0 <= a < m` coprime to `m`, `modinv`
replaces `a` with a signed representative of the inverse:
`(a * result) == 1 (mod m)` — though not necessarily the canonical one
in `[0, m)` — and on the three Section 8 fixtures it returns exactly the
stated limb patterns. -/
theorem claim_C1_amended (a m : I320) (haw : a.Wf) (hmw : m.Wf)
    (hmodd : m.sval % 2 = 1) (hm308 : m.sval < 2 ^ 308)
    (ha0 : 0 ≤ a.sval) (ham : a.sval < m.sval)
    (hgcd : Int.gcd a.sval m.sval = 1) :
    (a.sval * (I320.modinv a m).sval) % m.sval = 1 % m.sval ∧
      (I320.modinv
          (I320.new 0 0xffffffffffffffff 0xffffffffffffffff 0xffffffffffffffff
            0xfffffbfefffffc2f)
          (I320.new 0 0xffffffffffffffff 0xffffffffffffffff 0xffffffffffffffff
            0xfffffffefffffc2f) =
        I320.new 0 0xb88b76b2b3bfffff 0xffffffffffffffff 0xffffffffffffffff
          0xffffffff4774868d ∧
      I320.modinv
          (I320.new 0 0x7fffffffffffffff 0xffffffffffffffff 0xffffffffffffffff
            0xffffffff7ffffe18)
          (I320.new 0 0xffffffffffffffff 0xffffffffffffffff 0xffffffffffffffff
            0xfffffffefffffc2f) =
        I320.new 0 0 0 0 2 ∧
      I320.modinv (I320.new 0 0 0 0 0x111111)
          (I320.new 0 0xffffffffffffffff 0xffffffffffffffff 0xffffffffffffffff
            0xfffffffefffffc2f) =
        I320.new 0 0x3eb0f23eb0f23eb0 0xf23eb0f23eb0f23e 0xb0f23eb0f23eb0f2
          0x3eb0f23e72414b83) := by
  have hm1 : 1 ≤ m.sval := by omega
  have hone : (⟨1, 0, 0, 0, 0⟩ : I320).sval = 1 := by decide
  have hzero : (⟨0, 0, 0, 0, 0⟩ : I320).sval = 0 := by decide
  have honeW : (⟨1, 0, 0, 0, 0⟩ : I320).Wf := by decide
  have hzeroW : (⟨0, 0, 0, 0, 0⟩ : I320).Wf := by decide
  have hrel0 : ZRel ⟨a, m, ⟨1, 0, 0, 0, 0⟩, ⟨0, 0, 0, 0, 0⟩⟩ ⟨a.sval, m.sval, 1, 0⟩ :=
    ⟨haw, hmw, honeW, hzeroW, rfl, rfl, hone, hzero⟩
  have hsza : sz a.sval ≤ 308 := sz_le_of_lt a.sval 308 ha0 (by omega)
  have hszm : sz m.sval ≤ 308 := sz_le_of_lt m.sval 308 (by omega) hm308
  have hinv0 : ZInv m.sval a.sval ⟨a.sval, m.sval, 1, 0⟩ := by
    refine ⟨ha0, hm1, hmodd, (by omega : a.sval ≤ m.sval), le_refl _, rfl, ?_,
      ⟨0, by ring, ?_⟩, ⟨-1, by ring, ?_⟩⟩
    · show sz a.sval + sz m.sval ≤ 638
      omega
    · show (1 : ℤ).natAbs + (0 : ℤ).natAbs ≤
        1 + (638 - (sz a.sval + sz m.sval)) * m.sval.natAbs
      omega
    · show (0 : ℤ).natAbs + (-1 : ℤ).natAbs ≤
        1 + (638 - (sz a.sval + sz m.sval)) * m.sval.natAbs
      omega
  have hrelF := modinv_loop_refine m a.sval hmw hmodd hm1 hm308 ha0 (by omega) 640
    ⟨a, m, ⟨1, 0, 0, 0, 0⟩, ⟨0, 0, 0, 0, 0⟩⟩ ⟨a.sval, m.sval, 1, 0⟩ hrel0 hinv0
  obtain ⟨hinvF, haF⟩ := zloop_inv m.sval a.sval hmodd ha0 (by omega) 640
    ⟨a.sval, m.sval, 1, 0⟩ hinv0 (by show sz a.sval + sz m.sval ≤ 640; omega)
  obtain ⟨hFa, hFb1, hFbodd, hFam, hFbm, hFgcd, hFsz, hFex, ⟨v, hFyv, hFyb⟩⟩ := hinvF
  have hb1 : (zloop m.sval 640 ⟨a.sval, m.sval, 1, 0⟩).b = 1 := by
    rw [haF, Int.gcd_zero_left, hgcd] at hFgcd
    omega
  rw [hb1] at hFyv
  have hyv : (I320.modinv a m).sval = (zloop m.sval 640 ⟨a.sval, m.sval, 1, 0⟩).y :=
    hrelF.2.2.2.2.2.2.2
  constructor
  · rw [hyv]
    have he : a.sval * (zloop m.sval 640 ⟨a.sval, m.sval, 1, 0⟩).y = 1 + m.sval * v := by
      linarith [hFyv]
    rw [he]
    exact @Int.add_mul_emod_self_left 1 m.sval v
  · exact ⟨modinv_fixture_a, modinv_fixture_b, modinv_fixture_c⟩

theorem claim_C1_amended_witness :
    ((I320.new 0 0 0 0 3).Wf ∧ (I320.new 0 0 0 0 5).Wf ∧
        (I320.new 0 0 0 0 5).sval % 2 = 1 ∧ (I320.new 0 0 0 0 5).sval < 2 ^ 308 ∧
        0 ≤ (I320.new 0 0 0 0 3).sval ∧
        (I320.new 0 0 0 0 3).sval < (I320.new 0 0 0 0 5).sval ∧
        Int.gcd (I320.new 0 0 0 0 3).sval (I320.new 0 0 0 0 5).sval = 1) ∧
      ((I320.new 0 0 0 0 3).sval *
          (I320.modinv (I320.new 0 0 0 0 3) (I320.new 0 0 0 0 5)).sval) %
        (I320.new 0 0 0 0 5).sval = 1 % (I320.new 0 0 0 0 5).sval := by
  refine ⟨⟨by decide, by decide, by decide, by decide, by decide, by decide, by decide⟩, ?_⟩
  exact (claim_C1_amended (I320.new 0 0 0 0 3) (I320.new 0 0 0 0 5) (by decide) (by decide)
    (by decide) (by decide) (by decide) (by decide) (by decide)).1

/-- One unfolding of the fuelled loop when the remainder is non-zero. -/
theorem I320.modinv_loop_succ (m : I320) (f : Nat) (s : I320.St) (h : ¬ s.a.is_zero = true) :
    I320.modinv_loop m (f + 1) s = I320.modinv_loop m f (I320.modinv_step m s) := by
  simp [I320.modinv_loop, h]

/-- The `a`/`b` half of one iteration: well-formedness, sign and a
strict drop in total remainder bit length — with no assumption on the
coefficient registers or the modulus. -/
theorem modinv_step_ab (mI : I320) (s : I320.St) (haw : s.a.Wf) (hbw : s.b.Wf)
    (ha : 0 ≤ s.a.sval) (hb1 : 1 ≤ s.b.sval) (hnz : ¬ s.a.sval = 0) :
    (I320.modinv_step mI s).a.Wf ∧ (I320.modinv_step mI s).b.Wf ∧
      0 ≤ (I320.modinv_step mI s).a.sval ∧ 1 ≤ (I320.modinv_step mI s).b.sval ∧
      sz (I320.modinv_step mI s).a.sval + sz (I320.modinv_step mI s).b.sval <
        sz s.a.sval + sz s.b.sval := by
  have hra := s.a.sval_range haw
  have hrb := s.b.sval_range hbw
  by_cases hpar : s.a.sval % 2 = 0
  · have heI : s.a.is_even = true := (s.a.is_even_sval haw).mpr hpar
    have hz1 : I320.modinv_step mI s = ⟨s.a.div2, s.b, s.x.div2_mod mI, s.y⟩ := by
      simp only [I320.modinv_step]
      rw [if_pos heI]
    have hsv : s.a.div2.sval = s.a.sval / 2 := s.a.sval_div2 haw
    rw [hz1]
    refine ⟨s.a.div2_wf haw, hbw, ?_, hb1, ?_⟩
    · show 0 ≤ s.a.div2.sval
      rw [hsv]
      omega
    · show sz s.a.div2.sval + sz s.b.sval < sz s.a.sval + sz s.b.sval
      rw [hsv]
      have := sz_lt_sz s.a.sval (s.a.sval / 2) (by omega) (by omega) (by omega)
      omega
  · have heI : ¬ s.a.is_even = true := by rw [s.a.is_even_sval haw]; exact hpar
    have ha1 : 1 ≤ s.a.sval := by omega
    by_cases hlt : s.a.sval < s.b.sval
    · have hcmp : s.a.cmp s.b = Ordering.lt := ((s.a.cmp_spec s.b haw hbw).1).mpr hlt
      have hz1 : I320.modinv_step mI s =
          ⟨(s.b.sub_assign s.a).div2, s.a, (s.y.sub_assign s.x).div2_mod mI, s.x⟩ := by
        simp only [I320.modinv_step]
        rw [if_neg heI]
        rw [if_pos hcmp]
      have hsub : (s.b.sub_assign s.a).sval = s.b.sval - s.a.sval :=
        s.b.sval_sub_exact s.a hbw haw (by omega) (by omega)
      have hsv : (s.b.sub_assign s.a).div2.sval = (s.b.sval - s.a.sval) / 2 := by
        rw [(s.b.sub_assign s.a).sval_div2 (s.b.sub_assign_wf s.a), hsub]
      rw [hz1]
      refine ⟨(s.b.sub_assign s.a).div2_wf (s.b.sub_assign_wf s.a), haw, ?_, ha1, ?_⟩
      · show 0 ≤ (s.b.sub_assign s.a).div2.sval
        rw [hsv]
        omega
      · show sz (s.b.sub_assign s.a).div2.sval + sz s.a.sval < sz s.a.sval + sz s.b.sval
        rw [hsv]
        have := sz_lt_sz s.b.sval ((s.b.sval - s.a.sval) / 2) (by omega) (by omega) (by omega)
        omega
    · have hcmp : ¬ s.a.cmp s.b = Ordering.lt := by
        rw [(s.a.cmp_spec s.b haw hbw).1]
        omega
      have hz1 : I320.modinv_step mI s =
          ⟨(s.a.sub_assign s.b).div2, s.b, (s.x.sub_assign s.y).div2_mod mI, s.y⟩ := by
        simp only [I320.modinv_step]
        rw [if_neg heI]
        rw [if_neg hcmp]
      have hsub : (s.a.sub_assign s.b).sval = s.a.sval - s.b.sval :=
        s.a.sval_sub_exact s.b haw hbw (by omega) (by omega)
      have hsv : (s.a.sub_assign s.b).div2.sval = (s.a.sval - s.b.sval) / 2 := by
        rw [(s.a.sub_assign s.b).sval_div2 (s.a.sub_assign_wf s.b), hsub]
      rw [hz1]
      refine ⟨(s.a.sub_assign s.b).div2_wf (s.a.sub_assign_wf s.b), hbw, ?_, hb1, ?_⟩
      · show 0 ≤ (s.a.sub_assign s.b).div2.sval
        rw [hsv]
        omega
      · show sz (s.a.sub_assign s.b).div2.sval + sz s.b.sval < sz s.a.sval + sz s.b.sval
        rw [hsv]
        have := sz_lt_sz s.a.sval ((s.a.sval - s.b.sval) / 2) (by omega) (by omega) (by omega)
        omega

/-- With fuel at least the total remainder bit length, the loop drives
the remainder to zero — for every modulus. -/
theorem modinv_loop_ab (mI : I320) :
    ∀ f s, s.a.Wf → s.b.Wf → 0 ≤ s.a.sval → 1 ≤ s.b.sval →
      sz s.a.sval + sz s.b.sval ≤ f → ((I320.modinv_loop mI f s).a).is_zero = true := by
  intro f
  induction f with
  | zero =>
    intro s haw hbw ha hb hsz
    exfalso
    have := (sz_eq_zero_iff s.b.sval (by omega)).mp (by omega)
    omega
  | succ f ih =>
    intro s haw hbw ha hb hsz
    by_cases h0 : s.a.sval = 0
    · have hz : s.a.is_zero = true := (s.a.is_zero_sval haw).mpr h0
      have h1 : I320.modinv_loop mI (f + 1) s = s := by simp [I320.modinv_loop, hz]
      rw [h1]
      exact hz
    · have hz : ¬ s.a.is_zero = true := by rw [s.a.is_zero_sval haw]; exact h0
      rw [I320.modinv_loop_succ mI f s hz]
      obtain ⟨hw1, hw2, hp1, hp2, hdec⟩ := modinv_step_ab mI s haw hbw ha hb h0
      exact ih (I320.modinv_step mI s) hw1 hw2 hp1 hp2 (by omega)

/-- Claim C9: under the documented preconditions the `modinv` loop
terminates — the remainder is exactly zero after at most 640 iterations
(two bit lengths' worth), for every positive odd modulus. -/
theorem claim_C9 (a m : I320) (haw : a.Wf) (hmw : m.Wf) (hmodd : m.sval % 2 = 1)
    (hmpos : 0 < m.sval) (ha0 : 0 ≤ a.sval) (ham : a.sval < m.sval)
    (_hgcd : Int.gcd a.sval m.sval = 1) :
    ((I320.modinv_loop m 640 ⟨a, m, ⟨1, 0, 0, 0, 0⟩, ⟨0, 0, 0, 0, 0⟩⟩).a).is_zero = true := by
  refine modinv_loop_ab m 640 ⟨a, m, ⟨1, 0, 0, 0, 0⟩, ⟨0, 0, 0, 0, 0⟩⟩ haw hmw ha0
    (by omega : (1 : ℤ) ≤ m.sval) ?_
  show sz a.sval + sz m.sval ≤ 640
  have h1 : sz a.sval ≤ 319 := sz_le_of_lt a.sval 319 ha0 (by have := m.sval_range hmw; omega)
  have h2 : sz m.sval ≤ 319 := sz_le_of_lt m.sval 319 (by omega) (by have := m.sval_range hmw; omega)
  omega

theorem claim_C9_witness :
    ((I320.new 0 0 0 0 2).Wf ∧ (I320.new 0 0 0 0 5).Wf ∧ (I320.new 0 0 0 0 5).sval % 2 = 1 ∧
        0 < (I320.new 0 0 0 0 5).sval ∧ 0 ≤ (I320.new 0 0 0 0 2).sval ∧
        (I320.new 0 0 0 0 2).sval < (I320.new 0 0 0 0 5).sval ∧
        Int.gcd (I320.new 0 0 0 0 2).sval (I320.new 0 0 0 0 5).sval = 1) ∧
      ((I320.modinv_loop (I320.new 0 0 0 0 5) 640
          ⟨I320.new 0 0 0 0 2, I320.new 0 0 0 0 5, ⟨1, 0, 0, 0, 0⟩,
            ⟨0, 0, 0, 0, 0⟩⟩).a).is_zero = true := by
  refine ⟨⟨by decide, by decide, by decide, by decide, by decide, by decide, by decide⟩, ?_⟩
  exact claim_C9 (I320.new 0 0 0 0 2) (I320.new 0 0 0 0 5) (by decide) (by decide) (by decide)
    (by decide) (by decide) (by decide) (by decide)

/-- Once `b` and `y` both hold the value one and the remainder is
non-negative, they are never touched again: the swap would require
`a < 1`, impossible while the loop runs. -/
theorem modinv_loop_b_one (mI : I320) :
    ∀ f s, s.a.Wf → 0 ≤ s.a.sval → s.b = (⟨1, 0, 0, 0, 0⟩ : I320) →
      s.y = (⟨1, 0, 0, 0, 0⟩ : I320) →
      (I320.modinv_loop mI f s).y = (⟨1, 0, 0, 0, 0⟩ : I320) := by
  have honev : (⟨1, 0, 0, 0, 0⟩ : I320).sval = 1 := by decide
  have honew : (⟨1, 0, 0, 0, 0⟩ : I320).Wf := by decide
  intro f
  induction f with
  | zero => intro s _ _ _ hy; exact hy
  | succ f ih =>
    intro s haw ha hb hy
    by_cases h0 : s.a.is_zero = true
    · have h1 : I320.modinv_loop mI (f + 1) s = s := by simp [I320.modinv_loop, h0]
      rw [h1]
      exact hy
    · rw [I320.modinv_loop_succ mI f s h0]
      have ha0 : ¬ s.a.sval = 0 := by rw [← s.a.is_zero_sval haw]; exact h0
      have hra := s.a.sval_range haw
      by_cases hpar : s.a.sval % 2 = 0
      · have heI : s.a.is_even = true := (s.a.is_even_sval haw).mpr hpar
        have hz1 : I320.modinv_step mI s = ⟨s.a.div2, s.b, s.x.div2_mod mI, s.y⟩ := by
          simp only [I320.modinv_step]
          rw [if_pos heI]
        rw [hz1]
        refine ih ⟨s.a.div2, s.b, s.x.div2_mod mI, s.y⟩ (s.a.div2_wf haw) ?_ hb hy
        show 0 ≤ s.a.div2.sval
        rw [s.a.sval_div2 haw]
        omega
      · have heI : ¬ s.a.is_even = true := by rw [s.a.is_even_sval haw]; exact hpar
        have ha1 : 1 ≤ s.a.sval := by omega
        have hcmp : ¬ s.a.cmp s.b = Ordering.lt := by
          rw [hb, (s.a.cmp_spec (⟨1, 0, 0, 0, 0⟩ : I320) haw honew).1, honev]
          omega
        have hz1 : I320.modinv_step mI s =
            ⟨(s.a.sub_assign s.b).div2, s.b, (s.x.sub_assign s.y).div2_mod mI, s.y⟩ := by
          simp only [I320.modinv_step]
          rw [if_neg heI]
          rw [if_neg hcmp]
        rw [hz1]
        refine ih ⟨(s.a.sub_assign s.b).div2, s.b, (s.x.sub_assign s.y).div2_mod mI, s.y⟩
          ((s.a.sub_assign s.b).div2_wf (s.a.sub_assign_wf s.b)) ?_ hb hy
        show 0 ≤ (s.a.sub_assign s.b).div2.sval
        rw [(s.a.sub_assign s.b).sval_div2 (s.a.sub_assign_wf s.b), hb,
          s.a.sval_sub_exact (⟨1, 0, 0, 0, 0⟩ : I320) haw honew
            (by rw [honev]; omega) (by rw [honev]; omega), honev]
        omega

/-- Claim C8, counterexample: `m = 1` is a positive odd modulus and
`gcd(1, 1) = 1`, yet `modinv` maps `1` to `0`, not to `1`: the loop's
first iteration swaps `y := 1` away and the remainder pair degenerates. -/
theorem claim_C8_counterexample :
    (I320.new 0 0 0 0 1).sval % 2 = 1 ∧ 0 < (I320.new 0 0 0 0 1).sval ∧
      ¬ (I320.modinv (I320.new 0 0 0 0 1) (I320.new 0 0 0 0 1) = I320.new 0 0 0 0 1) := by
  decide

/-- Claim C8, amended: for every well-formed odd modulus `m >= 3`
(the claim fails only at the degenerate modulus `m = 1`, where the
result is `0`), `modinv` maps the value one to exactly one. -/
theorem claim_C8_amended (m : I320) (hmw : m.Wf) (hmodd : m.sval % 2 = 1)
    (hm3 : 3 ≤ m.sval) :
    I320.modinv (I320.new 0 0 0 0 1) m = I320.new 0 0 0 0 1 := by
  have honev : (⟨1, 0, 0, 0, 0⟩ : I320).sval = 1 := by decide
  have honew : (⟨1, 0, 0, 0, 0⟩ : I320).Wf := by decide
  have hrm := m.sval_range hmw
  show (I320.modinv_loop m 640
    ⟨I320.new 0 0 0 0 1, m, ⟨1, 0, 0, 0, 0⟩, ⟨0, 0, 0, 0, 0⟩⟩).y = I320.new 0 0 0 0 1
  rw [show (640 : Nat) = 639 + 1 from rfl,
    I320.modinv_loop_succ m 639 ⟨I320.new 0 0 0 0 1, m, ⟨1, 0, 0, 0, 0⟩, ⟨0, 0, 0, 0, 0⟩⟩
      (show ¬ (I320.new 0 0 0 0 1).is_zero = true from by decide)]
  have hcmp : (I320.new 0 0 0 0 1).cmp m = Ordering.lt :=
    ((I320.new 0 0 0 0 1).cmp_spec m (by decide) hmw).1.mpr
      (by rw [show (I320.new 0 0 0 0 1).sval = 1 from by decide]; omega)
  have hstep : I320.modinv_step m ⟨I320.new 0 0 0 0 1, m, ⟨1, 0, 0, 0, 0⟩, ⟨0, 0, 0, 0, 0⟩⟩ =
      ⟨(m.sub_assign (I320.new 0 0 0 0 1)).div2, I320.new 0 0 0 0 1,
        ((⟨0, 0, 0, 0, 0⟩ : I320).sub_assign (⟨1, 0, 0, 0, 0⟩ : I320)).div2_mod m,
        ⟨1, 0, 0, 0, 0⟩⟩ := by
    simp only [I320.modinv_step]
    rw [if_neg (show ¬ (I320.new 0 0 0 0 1).is_even = true from by decide)]
    rw [if_pos hcmp]
  rw [hstep]
  refine modinv_loop_b_one m 639
    ⟨(m.sub_assign (I320.new 0 0 0 0 1)).div2, I320.new 0 0 0 0 1,
      ((⟨0, 0, 0, 0, 0⟩ : I320).sub_assign (⟨1, 0, 0, 0, 0⟩ : I320)).div2_mod m,
      ⟨1, 0, 0, 0, 0⟩⟩
    ((m.sub_assign (I320.new 0 0 0 0 1)).div2_wf (m.sub_assign_wf (I320.new 0 0 0 0 1)))
    ?_ rfl rfl
  show 0 ≤ (m.sub_assign (I320.new 0 0 0 0 1)).div2.sval
  rw [(m.sub_assign (I320.new 0 0 0 0 1)).sval_div2 (m.sub_assign_wf (I320.new 0 0 0 0 1)),
    m.sval_sub_exact (I320.new 0 0 0 0 1) hmw (by decide)
      (by rw [show (I320.new 0 0 0 0 1).sval = 1 from by decide]; omega)
      (by rw [show (I320.new 0 0 0 0 1).sval = 1 from by decide]; omega),
    show (I320.new 0 0 0 0 1).sval = 1 from by decide]
  omega

theorem claim_C8_amended_witness :
    ((I320.new 0 0 0 0 5).Wf ∧ (I320.new 0 0 0 0 5).sval % 2 = 1 ∧
        3 ≤ (I320.new 0 0 0 0 5).sval) ∧
      I320.modinv (I320.new 0 0 0 0 1) (I320.new 0 0 0 0 5) = I320.new 0 0 0 0 1 := by
  refine ⟨⟨by decide, by decide, by decide⟩, ?_⟩
  exact claim_C8_amended (I320.new 0 0 0 0 5) (by decide) (by decide) (by decide)
